import Mathlib

/-!
Verification development for the awrtc_signaling relay core.

The model below is a shallow embedding of the peer-session state machine
(src/src/SignalingPeer.ts), the peer pool (src/src/PeerPool.ts and its newer
revision), and the cleanup/dispose interplay with the websocket protocol
(BinaryWebsocketProtocol). Sessions are identified by natural-number peer ids;
the mutable heap of the TypeScript program becomes an explicit `World` value
threaded through every operation. Events handed to a peer's client are
recorded in a trace; a pending JavaScript exception is modelled by a `thrown`
flag that each caller either propagates or catches exactly where the source
does (the protocol's message handler wraps dispatch in try/catch).
-/

namespace Awrtc

/-- Connection state of a signaling peer (`SignalingConnectionState` in
src/src/SignalingPeer.ts). -/
inductive SignalingConnectionState where
  | Uninitialized
  | Connecting
  | Connected
  | Disconnecting
  | Disconnected
deriving DecidableEq, Repr

/-- Event types of the signaling protocol. Modelled from the spec: the file
INetwork.ts defining `NetEventType` is not under src/; the spec lists the
closed enumeration. The meta messages are consumed below the peer session. -/
inductive NetEventType where
  | Invalid
  | UnreliableMessageReceived
  | ServerInitialized
  | ServerInitFailed
  | ServerClosed
  | NewConnection
  | ConnectionFailed
  | Disconnected
  | ReliableMessageReceived
  | FatalError
  | Warning
  | Log
  | MetaVersion
  | MetaHeartbeat
deriving DecidableEq, Repr

/-- Event payload. Modelled from the spec: INetwork.ts is not under src/; the
spec says a payload is absent, a string, or an opaque byte buffer. -/
inductive Payload where
  | empty
  | str (s : String)
  | bytes (b : List Nat)
deriving DecidableEq, Repr

/-- A network event (type, connection id, payload). Modelled from the spec:
INetwork.ts (`NetworkEvent`, `ConnectionId`) is not under src/. Connection ids
are integers (the wrapper class only stores the number); INVALID is -1. -/
structure NetworkEvent where
  ety : NetEventType
  cid : Int
  payload : Payload
deriving DecidableEq, Repr

/-- The `Info` accessor: the payload when it is a string. -/
def NetworkEvent.Info : NetworkEvent → Option String
  | ⟨_, _, Payload.str s⟩ => some s
  | _ => none

/-- The `MessageData` accessor: the payload when it is a byte buffer. -/
def NetworkEvent.MessageData : NetworkEvent → Option (List Nat)
  | ⟨_, _, Payload.bytes b⟩ => some b
  | _ => none

/-- ConnectionId.INVALID. -/
def INVALID : Int := -1

/-- Server-side state of one SignalingPeer (src/src/SignalingPeer.ts): the
connection state `mState`, the pair map `mConnections` (a JS object keyed by
the stringified connection id, modelled as a key-unique association list),
`mNextIncomingConnectionId`, `mOwnAddress`, and the `mIsDisposed` flag of the
peer's BinaryWebsocketProtocol. -/
structure Session where
  sstate : SignalingConnectionState
  connections : List (Int × Nat)
  nextIncomingConnectionId : Int
  ownAddress : Option String
  protoDisposed : Bool
deriving DecidableEq, Repr

/-- A fresh session as built by the SignalingPeer constructor (it ends in
state Connected, with the incoming-id counter at 16384). -/
def freshSession : Session :=
  ⟨SignalingConnectionState.Connected, [], 16384, none, false⟩

/-- Default for peer ids that were never allocated. -/
def noSession : Session :=
  ⟨SignalingConnectionState.Uninitialized, [], 16384, none, false⟩

/-- Global state: all sessions (a total map from peer id), the pool's peer
list (`mConnections` of PeerPool), the listener map (`mListeners` /
`mServers`), the address-sharing flag, the trace of events handed to each
peer's client, log counters by level, the pending-exception flag, and the
next fresh peer id. -/
structure World where
  peers : Nat → Session
  poolSessions : List Nat
  listeners : List (String × List Nat)
  addressSharing : Bool
  trace : List (Nat × NetworkEvent)
  errlogs : Nat
  infologs : Nat
  warnlogs : Nat
  thrown : Bool
  nextPeer : Nat

/-- Read a session. -/
def getS (w : World) (p : Nat) : Session := w.peers p

/-- Replace a session. -/
def setS (w : World) (p : Nat) (s : Session) : World :=
  { w with peers := fun q => if q = p then s else w.peers q }

/-- Pair-map lookup (`this.mConnections[id.id]`). -/
def conlookup (l : List (Int × Nat)) (k : Int) : Option Nat :=
  (l.find? (fun e => e.1 == k)).map (fun e => e.2)

/-- JS object assignment `obj[k] = v`: replace the entry in place if the key
exists, otherwise append. -/
def setConn : List (Int × Nat) → Int → Nat → List (Int × Nat)
  | [], k, v => [(k, v)]
  | e :: t, k, v => if e.1 = k then (k, v) :: t else e :: setConn t k v

/-- JS `delete obj[k]` (object keys are unique). -/
def delConn (l : List (Int × Nat)) (k : Int) : List (Int × Nat) :=
  l.filter (fun e => ¬ e.1 = k)

/-- Listener-map lookup (`this.mListeners[address]`). -/
def llookup (l : List (String × List Nat)) (k : String) : Option (List Nat) :=
  (l.find? (fun e => e.1 == k)).map (fun e => e.2)

/-- Listener-map assignment. -/
def lset : List (String × List Nat) → String → List Nat → List (String × List Nat)
  | [], k, v => [(k, v)]
  | e :: t, k, v => if e.1 = k then (k, v) :: t else e :: lset t k v

/-- Listener-map key deletion. -/
def lerase (l : List (String × List Nat)) (k : String) : List (String × List Nat) :=
  l.filter (fun e => ¬ e.1 = k)

/-- JS coerces a null object index to the string key "null". -/
def addrKey : Option String → String
  | none => "null"
  | some s => s

/-- SignalingPeer.sendToClient: hand the event to this peer's client only
while the state is Connected; otherwise drop it (with a verbose log that the
model does not count). -/
def sendToClient (w : World) (p : Nat) (evt : NetworkEvent) : World :=
  if (getS w p).sstate = SignalingConnectionState.Connected then
    { w with trace := w.trace ++ [(p, evt)] }
  else w

/-- SignalingPeer.internalAddIncomingPeer: allocate the next incoming id
(nextConnectionId returns the counter and increments it), store the peer
under it, and emit NewConnection. -/
def internalAddIncomingPeer (w : World) (p otherPeer : Nat) : World :=
  let s := getS w p
  let id := s.nextIncomingConnectionId
  let w1 := setS w p { s with
    connections := setConn s.connections id otherPeer,
    nextIncomingConnectionId := id + 1 }
  sendToClient w1 p ⟨NetEventType.NewConnection, id, Payload.empty⟩

/-- SignalingPeer.internalAddOutgoingPeer: store the peer under the
client-chosen id and emit NewConnection. -/
def internalAddOutgoingPeer (w : World) (p otherPeer : Nat) (id : Int) : World :=
  let s := getS w p
  let w1 := setS w p { s with connections := setConn s.connections id otherPeer }
  sendToClient w1 p ⟨NetEventType.NewConnection, id, Payload.empty⟩

/-- SignalingPeer.internalRemovePeer: delete the id and emit Disconnected. -/
def internalRemovePeer (w : World) (p : Nat) (id : Int) : World :=
  let s := getS w p
  let w1 := setS w p { s with connections := delConn s.connections id }
  sendToClient w1 p ⟨NetEventType.Disconnected, id, Payload.empty⟩

/-- SignalingPeer.findPeerConnectionId: the first key of the pair map whose
value is the given peer. -/
def findPeerConnectionId (s : Session) (otherPeer : Nat) : Option Int :=
  (s.connections.find? (fun e => e.2 == otherPeer)).map (fun e => e.1)

/-- SignalingPeer.acceptOutgoingConnection. -/
def acceptOutgoingConnection (w : World) (p otherPeer : Nat) (id : Int) : World :=
  internalAddOutgoingPeer w p otherPeer id

/-- SignalingPeer.acceptIncomingConnection. -/
def acceptIncomingConnection (w : World) (p otherPeer : Nat) : World :=
  internalAddIncomingPeer w p otherPeer

/-- SignalingPeer.denyConnection (the address is not sent back). -/
def denyConnection (w : World) (p : Nat) (_address : Option String) (id : Int) : World :=
  sendToClient w p ⟨NetEventType.ConnectionFailed, id, Payload.empty⟩

/-- SignalingPeer.acceptListening: record the address, emit ServerInitialized. -/
def acceptListening (w : World) (p : Nat) (address : String) : World :=
  let w1 := setS w p { getS w p with ownAddress := some address }
  sendToClient w1 p ⟨NetEventType.ServerInitialized, INVALID, Payload.str address⟩

/-- SignalingPeer.denyListening: emit ServerInitFailed. -/
def denyListening (w : World) (p : Nat) (address : String) : World :=
  sendToClient w p ⟨NetEventType.ServerInitFailed, INVALID, Payload.str address⟩

/-- SignalingPeer.disconnect: tear down one pairing. Unknown id: do nothing.
Missing reverse entry: error log, drop. Otherwise remove the id here, then
the reverse id on the other peer (each removal emits Disconnected). -/
def disconnect (w : World) (p : Nat) (connectionId : Int) : World :=
  match conlookup (getS w p).connections connectionId with
  | none => w
  | some otherPeer =>
    match findPeerConnectionId (getS w otherPeer) p with
    | none => { w with errlogs := w.errlogs + 1 }
    | some idOfOther =>
      internalRemovePeer (internalRemovePeer w p connectionId) otherPeer idOfOther

/-- PeerPool.addListener: push the client onto the list for the address,
creating the list if needed. No checks. -/
def addListener (w : World) (p : Nat) (address : String) : World :=
  match llookup w.listeners address with
  | none => { w with listeners := lset w.listeners address [p] }
  | some l => { w with listeners := lset w.listeners address (l ++ [p]) }

/-- PeerPool.removeListener: splice the client out of the list for the
address and drop the key once empty. Indexing a missing key throws a
TypeError at the indexOf call, before any mutation. -/
def removeListener (w : World) (p : Nat) (address : String) : World :=
  match llookup w.listeners address with
  | none => { w with thrown := true }
  | some l =>
    let l2 := l.erase p
    if l2.isEmpty then { w with listeners := lerase w.listeners address }
    else { w with listeners := lset w.listeners address l2 }

/-- PeerPool.removeConnection: remove the peer from the pool list, warn if it
was unknown. -/
def removeConnection (w : World) (p : Nat) : World :=
  if p ∈ w.poolSessions then { w with poolSessions := w.poolSessions.erase p }
  else { w with warnlogs := w.warnlogs + 1 }

/-- DefaultPeerPool.maxAddressLength. -/
def maxAddressLength : Nat := 256

/-- DefaultPeerPool.isAddressAvailable: the address is short enough and
either unused or sharing is on. -/
def isAddressAvailable (w : World) (address : String) : Bool :=
  decide (address.length ≤ maxAddressLength) &&
    ((llookup w.listeners address).isNone || w.addressSharing)

/-- DefaultPeerPool.acceptJoin: connect the new listener to every other peer
already on the address (others first, skipping the client itself). -/
def acceptJoin (w : World) (address : String) (p : Nat) : World :=
  match llookup w.listeners address with
  | none => w
  | some l =>
    l.foldl (fun wa v =>
      if v ≠ p then acceptIncomingConnection (acceptIncomingConnection wa v p) p v
      else wa) w

/-- DefaultPeerPool.onListeningRequest. -/
def onListeningRequest (w : World) (p : Nat) (address : String) : World :=
  if isAddressAvailable w address then
    let w1 := addListener w p address
    let w2 := acceptListening w1 p address
    if w2.addressSharing then acceptJoin w2 address p else w2
  else denyListening w p address

/-- DefaultPeerPool.onStopListening. -/
def onStopListening (w : World) (p : Nat) (address : Option String) : World :=
  removeListener w p (addrKey address)

/-- DefaultPeerPool.onConnectionRequest (newer revision): one listener means
connect, several listeners means warn and deny, none means deny. -/
def onConnectionRequest (w : World) (p : Nat) (address : Option String) (id : Int) : World :=
  match llookup w.listeners (addrKey address) with
  | some l =>
    if l.length = 1 then
      let otherPeer := l.headI
      acceptOutgoingConnection (acceptIncomingConnection w otherPeer p) p otherPeer id
    else if 1 < l.length then
      denyConnection { w with warnlogs := w.warnlogs + 1 } p address id
    else denyConnection w p address id
  | none => denyConnection w p address id

/-- DefaultPeerPool.onCleanup. -/
def onCleanup (w : World) (p : Nat) : World :=
  removeConnection w p

/-- SignalingPeer.stopListen: tell the controller first (this throws when the
address key is missing, e.g. the null key of an unset address with no "null"
listener), then either error-log when no address was set, or emit
ServerClosed and clear the address. -/
def stopListen (w : World) (p : Nat) : World :=
  let w1 := onStopListening w p (getS w p).ownAddress
  if w1.thrown then w1
  else
    match (getS w1 p).ownAddress with
    | none => { w1 with errlogs := w1.errlogs + 1 }
    | some _ =>
      let w2 := sendToClient w1 p ⟨NetEventType.ServerClosed, INVALID, Payload.empty⟩
      setS w2 p { getS w2 p with ownAddress := none }

/-- SignalingPeer.listen: stop listening first when an address is already
held, then raise the request. A null address reaches the length check inside
isAddressAvailable and throws there, before any pool mutation. -/
def listen (w : World) (p : Nat) (address : Option String) : World :=
  let w1 := if (getS w p).ownAddress ≠ none then stopListen w p else w
  if w1.thrown then w1
  else
    match address with
    | none => { w1 with thrown := true }
    | some a => onListeningRequest w1 p a

/-- SignalingPeer.connect. -/
def connect (w : World) (p : Nat) (address : Option String) (id : Int) : World :=
  onConnectionRequest w p address id

/-- Placeholder id used when findPeerConnectionId has no match: the JS
undefined id serializes as 0 at the codec. -/
def undefinedId : Int := 0

/-- SignalingPeer.forwardMessage: deliver the message to this peer under the
id this peer uses for the sender. -/
def forwardMessage (w : World) (p senderPeer : Nat) (msg : Option (List Nat))
    (reliable : Bool) : World :=
  let id := findPeerConnectionId (getS w p) senderPeer
  let ety := if reliable then NetEventType.ReliableMessageReceived
             else NetEventType.UnreliableMessageReceived
  let pl := match msg with
            | none => Payload.empty
            | some b => Payload.bytes b
  sendToClient w p ⟨ety, id.getD undefinedId, pl⟩

/-- SignalingPeer.sendData: look up the target of the id and forward, or
info-log and drop when the id is unknown. -/
def sendData (w : World) (p : Nat) (id : Int) (msg : Option (List Nat))
    (reliable : Bool) : World :=
  match conlookup (getS w p).connections id with
  | some peer => forwardMessage w peer p msg reliable
  | none => { w with infologs := w.infologs + 1 }

/-- SignalingPeer.onNetworkEvent: dispatch one inbound event. -/
def onNetworkEvent (w : World) (p : Nat) (evt : NetworkEvent) : World :=
  match evt.ety with
  | NetEventType.NewConnection => connect w p evt.Info evt.cid
  | NetEventType.Disconnected => disconnect w p evt.cid
  | NetEventType.ServerInitialized => listen w p evt.Info
  | NetEventType.ServerClosed => stopListen w p
  | NetEventType.ReliableMessageReceived => sendData w p evt.cid evt.MessageData true
  | NetEventType.UnreliableMessageReceived => sendData w p evt.cid evt.MessageData false
  | _ => w

/-- BinaryWebsocketProtocol.onMessage/processMessage: the meta messages are
answered below the session; every other event is dispatched inside a
try/catch whose catch error-logs and swallows the exception. -/
def handleMessage (w : World) (p : Nat) (evt : NetworkEvent) : World :=
  match evt.ety with
  | NetEventType.MetaVersion => w
  | NetEventType.MetaHeartbeat => w
  | _ =>
    let w1 := onNetworkEvent w p evt
    if w1.thrown then { w1 with thrown := false, errlogs := w1.errlogs + 1 } else w1

/-- The pair-teardown loop of SignalingPeer.cleanup over a snapshot of the
pair-map keys. -/
def disconnectAll (w : World) (p : Nat) (ks : List Int) : World :=
  ks.foldl (fun wa k => disconnect wa p k) w

/-- Set the session state. -/
def setStateOf (w : World) (p : Nat) (st : SignalingConnectionState) : World :=
  setS w p { getS w p with sstate := st }

/-- Set the protocol's disposed flag. -/
def markDisposed (w : World) (p : Nat) : World :=
  setS w p { getS w p with protoDisposed := true }

/-- SignalingPeer.cleanup, with BinaryWebsocketProtocol.cleanup (reached via
protocol.dispose) inlined: the protocol raises onNetworkClosed before setting
its disposed flag, so dispose re-enters this very function; the fuel
argument makes that re-entry structurally decreasing (the state guard absorbs
it after one step, so fuel 2 realizes the source behavior). An exception from
stopListen propagates out, skipping the rest, as in the source. -/
def cleanupF : Nat → World → Nat → World
  | 0, w, _ => w
  | fuel + 1, w, p =>
    if (getS w p).sstate = SignalingConnectionState.Disconnecting ∨
       (getS w p).sstate = SignalingConnectionState.Disconnected then w
    else
      let w1 := setStateOf w p SignalingConnectionState.Disconnecting
      let w2 := onCleanup w1 p
      let ks := (getS w2 p).connections.map (fun e => e.1)
      let w3 := disconnectAll w2 p ks
      let w4 := if (getS w3 p).ownAddress ≠ none then stopListen w3 p else w3
      if w4.thrown then w4
      else if (getS w4 p).protoDisposed then
        setStateOf w4 p SignalingConnectionState.Disconnected
      else
        let wi := cleanupF fuel w4 p
        if wi.thrown then wi
        else setStateOf (markDisposed wi p) p SignalingConnectionState.Disconnected

/-- SignalingPeer.cleanup at the fuel realizing the source recursion. -/
def cleanup (w : World) (p : Nat) : World := cleanupF 2 w p

/-- BinaryWebsocketProtocol.cleanup as triggered by socket close or no-pong
timeout: guarded by the disposed flag; raises the session cleanup, then marks
the protocol disposed (skipped if the cleanup threw). -/
def onSocketClose (w : World) (p : Nat) : World :=
  if (getS w p).protoDisposed then w
  else
    let w1 := cleanup w p
    if w1.thrown then w1 else markDisposed w1 p

/-- PeerPool.add: construct a protocol and session for a new endpoint and
push the session onto the pool list. -/
def addPeer (w : World) : World :=
  let p := w.nextPeer
  let w1 := setS w p freshSession
  { w1 with poolSessions := w1.poolSessions ++ [p], nextPeer := p + 1 }

/-- An empty pool for one application namespace. -/
def initWorld (sharing : Bool) : World :=
  ⟨fun _ => noSession, [], [], sharing, [], 0, 0, 0, false, 0⟩

/-- Worlds reachable from an empty pool by admitting sockets, handling client
messages of connected sessions, and socket-close cleanups. -/
inductive Reachable : World → Prop where
  | init (sharing : Bool) : Reachable (initWorld sharing)
  | newPeer {w : World} : Reachable w → Reachable (addPeer w)
  | message {w : World} {p : Nat} (evt : NetworkEvent) : Reachable w →
      (getS w p).sstate = SignalingConnectionState.Connected →
      Reachable (handleMessage w p evt)
  | socketClose {w : World} {p : Nat} : Reachable w → p < w.nextPeer →
      Reachable (onSocketClose w p)

/-- Number of pair-map entries pointing at a peer. -/
def revCount (l : List (Int × Nat)) (p : Nat) : Nat :=
  (l.filter (fun e => e.2 == p)).length

/-- Decidable statement of the spec's pair-symmetry invariant: every pair-map
entry of a pooled session that points at a pooled session is mirrored by
exactly one reverse entry. -/
def pairSymHolds (w : World) : Bool :=
  w.poolSessions.all (fun p =>
    (getS w p).connections.all (fun e =>
      !(w.poolSessions.contains e.2) || (revCount (getS w e.2).connections p == 1)))

/-- A world with a single session admitted to the pool. -/
def worldOnePeer : World := addPeer (initWorld false)

/-- The single session has listened on address "a". -/
def worldListening : World :=
  handleMessage worldOnePeer 0 ⟨NetEventType.ServerInitialized, INVALID, Payload.str "a"⟩

/-- The listening session has then requested a connection to its own address
"a" with client-chosen id 1. -/
def worldSelfConnect : World :=
  handleMessage worldListening 0 ⟨NetEventType.NewConnection, 1, Payload.str "a"⟩

/-- A world whose only session is in state Disconnecting. -/
def worldDisconnecting : World :=
  ⟨fun _ => { freshSession with sstate := SignalingConnectionState.Disconnecting },
   [0], [], false, [], 0, 0, 0, false, 1⟩

/-- Session 0 of the paired world: connected to peer 1 under id 5. -/
def pairedSession0 : Session :=
  ⟨SignalingConnectionState.Connected, [(5, 1)], 16384, none, false⟩

/-- Session 1 of the paired world: connected to peer 0 under id 16384. -/
def pairedSession1 : Session :=
  ⟨SignalingConnectionState.Connected, [(16384, 0)], 16385, none, false⟩

/-- A world with two sessions pair-connected to each other. -/
def worldPaired : World :=
  ⟨fun q => if q = 0 then pairedSession0 else if q = 1 then pairedSession1 else noSession,
   [0, 1], [], false, [], 0, 0, 0, false, 2⟩

theorem getS_setS_self (w : World) (p : Nat) (s : Session) : getS (setS w p s) p = s := by
  simp [getS, setS]

theorem getS_setS_ne (w : World) (p q : Nat) (s : Session) (h : q ≠ p) :
    getS (setS w p s) q = getS w q := by
  simp [getS, setS, h]

theorem setS_listeners (w : World) (p : Nat) (s : Session) :
    (setS w p s).listeners = w.listeners := rfl

theorem setS_trace (w : World) (p : Nat) (s : Session) : (setS w p s).trace = w.trace := rfl

theorem setS_thrown (w : World) (p : Nat) (s : Session) : (setS w p s).thrown = w.thrown := rfl

theorem getS_sendToClient (w : World) (p : Nat) (e : NetworkEvent) (q : Nat) :
    getS (sendToClient w p e) q = getS w q := by
  unfold sendToClient; split <;> rfl

theorem sendToClient_listeners (w : World) (p : Nat) (e : NetworkEvent) :
    (sendToClient w p e).listeners = w.listeners := by
  unfold sendToClient; split <;> rfl

theorem sendToClient_thrown (w : World) (p : Nat) (e : NetworkEvent) :
    (sendToClient w p e).thrown = w.thrown := by
  unfold sendToClient; split <;> rfl

theorem sendToClient_trace (w : World) (p : Nat) (e : NetworkEvent) :
    (sendToClient w p e).trace =
      if (getS w p).sstate = SignalingConnectionState.Connected
      then w.trace ++ [(p, e)] else w.trace := by
  unfold sendToClient; split <;> simp_all

theorem conlookup_setConn_self (l : List (Int × Nat)) (k : Int) (v : Nat) :
    conlookup (setConn l k v) k = some v := by
  induction l with
  | nil => simp [conlookup, setConn]
  | cons e t ih =>
    by_cases h : e.1 = k
    · simp only [setConn, if_pos h, conlookup]
      rw [List.find?_cons_of_pos _ (by simp)]
      rfl
    · simp only [setConn, if_neg h, conlookup]
      rw [List.find?_cons_of_neg _ (by simp [h])]
      exact ih

theorem find?_of_filter_eq_cons {α : Type} (P : α → Bool) :
    ∀ (l : List α) (x : α) (t : List α), l.filter P = x :: t → l.find? P = some x := by
  intro l
  induction l with
  | nil => intro x t h; simp [List.filter] at h
  | cons e r ih =>
    intro x t h
    by_cases he : P e
    · rw [List.filter_cons_of_pos he] at h
      rw [List.find?_cons_of_pos _ he]
      exact congrArg some (List.cons_eq_cons.mp h).1
    · rw [List.filter_cons_of_neg he] at h
      rw [List.find?_cons_of_neg _ he]
      exact ih x t h

theorem findPeerConnectionId_of_filter (s : Session) (q : Nat) (j : Int)
    (h : s.connections.filter (fun e => e.2 == q) = [(j, q)]) :
    findPeerConnectionId s q = some j := by
  unfold findPeerConnectionId
  rw [find?_of_filter_eq_cons _ _ _ _ h]
  rfl

/-- C7: isAddressAvailable returns true exactly when the address has length
at most 256 and either the pool has no listener entry for it or address
sharing is enabled. -/
theorem isAddressAvailable_iff (w : World) (address : String) :
    isAddressAvailable w address = true ↔
      (address.length ≤ 256 ∧
        (llookup w.listeners address = none ∨ w.addressSharing = true)) := by
  simp [isAddressAvailable, maxAddressLength, Option.isNone_iff_eq_none]

/-- C10: accepting an outgoing connection on an id that the session's pair
map already uses silently overwrites the entry (one NewConnection event, no
Disconnected event, every other session untouched, so the displaced peer
keeps its now half-open reverse entry); likewise an incoming-id allocation
whose fresh id is already a key of the pair map overwrites that entry. -/
theorem acceptConnection_overwrite_silent :
    (∀ (w : World) (S P Q : Nat) (i : Int),
      (getS w S).sstate = SignalingConnectionState.Connected →
      conlookup (getS w S).connections i = some Q →
      (acceptOutgoingConnection w S P i).trace
          = w.trace ++ [(S, ⟨NetEventType.NewConnection, i, Payload.empty⟩)] ∧
      conlookup (getS (acceptOutgoingConnection w S P i) S).connections i = some P ∧
      (∀ r, r ≠ S → getS (acceptOutgoingConnection w S P i) r = getS w r)) ∧
    (∀ (w : World) (S P Q : Nat),
      (getS w S).sstate = SignalingConnectionState.Connected →
      conlookup (getS w S).connections (getS w S).nextIncomingConnectionId = some Q →
      (acceptIncomingConnection w S P).trace
          = w.trace ++ [(S, ⟨NetEventType.NewConnection,
              (getS w S).nextIncomingConnectionId, Payload.empty⟩)] ∧
      conlookup (getS (acceptIncomingConnection w S P) S).connections
          (getS w S).nextIncomingConnectionId = some P ∧
      (∀ r, r ≠ S → getS (acceptIncomingConnection w S P) r = getS w r)) := by
  constructor
  · intro w S P Q i hst _
    refine ⟨?_, ?_, ?_⟩
    · simp only [acceptOutgoingConnection, internalAddOutgoingPeer, sendToClient_trace,
        getS_setS_self, hst, if_pos, setS_trace]
    · simp only [acceptOutgoingConnection, internalAddOutgoingPeer, getS_sendToClient,
        getS_setS_self]
      exact conlookup_setConn_self _ _ _
    · intro r hr
      simp only [acceptOutgoingConnection, internalAddOutgoingPeer, getS_sendToClient]
      exact getS_setS_ne _ _ _ _ hr
  · intro w S P Q hst _
    refine ⟨?_, ?_, ?_⟩
    · simp only [acceptIncomingConnection, internalAddIncomingPeer, sendToClient_trace,
        getS_setS_self, hst, if_pos, setS_trace]
    · simp only [acceptIncomingConnection, internalAddIncomingPeer, getS_sendToClient,
        getS_setS_self]
      exact conlookup_setConn_self _ _ _
    · intro r hr
      simp only [acceptIncomingConnection, internalAddIncomingPeer, getS_sendToClient]
      exact getS_setS_ne _ _ _ _ hr

/-- A session whose next incoming id 16384 is already a key of its pair map
(the client chose 16384 as an outgoing id earlier). -/
def clashSession : Session :=
  ⟨SignalingConnectionState.Connected, [(16384, 1)], 16384, none, false⟩

/-- A world exhibiting the incoming-id clash of C10. -/
def worldIncomingClash : World :=
  ⟨fun q => if q = 0 then clashSession else if q = 1 then pairedSession1 else noSession,
   [0, 1], [], false, [], 0, 0, 0, false, 2⟩

/-- Witness for C10 at concrete worlds: in the paired world, session 0
already maps id 5 to peer 1 and an outgoing accept for peer 2 on id 5
displaces it; in the clash world the incoming allocation overwrites the
existing key 16384. -/
theorem acceptConnection_overwrite_silent_witness :
    ((getS worldPaired 0).sstate = SignalingConnectionState.Connected ∧
      conlookup (getS worldPaired 0).connections 5 = some 1 ∧
      (acceptOutgoingConnection worldPaired 0 2 5).trace
          = worldPaired.trace ++ [(0, ⟨NetEventType.NewConnection, 5, Payload.empty⟩)] ∧
      conlookup (getS (acceptOutgoingConnection worldPaired 0 2 5) 0).connections 5 = some 2 ∧
      (∀ r, r ≠ 0 → getS (acceptOutgoingConnection worldPaired 0 2 5) r = getS worldPaired r)) ∧
    ((getS worldIncomingClash 0).sstate = SignalingConnectionState.Connected ∧
      conlookup (getS worldIncomingClash 0).connections
          (getS worldIncomingClash 0).nextIncomingConnectionId = some 1 ∧
      (acceptIncomingConnection worldIncomingClash 0 2).trace
          = worldIncomingClash.trace ++ [(0, ⟨NetEventType.NewConnection,
              (getS worldIncomingClash 0).nextIncomingConnectionId, Payload.empty⟩)] ∧
      conlookup (getS (acceptIncomingConnection worldIncomingClash 0 2) 0).connections
          (getS worldIncomingClash 0).nextIncomingConnectionId = some 2 ∧
      (∀ r, r ≠ 0 → getS (acceptIncomingConnection worldIncomingClash 0 2) r
          = getS worldIncomingClash r)) := by
  constructor
  · refine ⟨by decide, by decide, ?_⟩
    have h := acceptConnection_overwrite_silent.1 worldPaired 0 2 1 5 (by decide) (by decide)
    exact ⟨h.1, h.2.1, h.2.2⟩
  · refine ⟨by decide, by decide, ?_⟩
    have h := acceptConnection_overwrite_silent.2 worldIncomingClash 0 2 1 (by decide) (by decide)
    exact ⟨h.1, h.2.1, h.2.2⟩

theorem getS_internalRemovePeer_ne (w : World) (p : Nat) (id : Int) (q : Nat) (h : q ≠ p) :
    getS (internalRemovePeer w p id) q = getS w q := by
  simp only [internalRemovePeer, getS_sendToClient]
  exact getS_setS_ne _ _ _ _ h

theorem sstate_internalRemovePeer (w : World) (p : Nat) (id : Int) (q : Nat) :
    (getS (internalRemovePeer w p id) q).sstate = (getS w q).sstate := by
  by_cases h : q = p
  · subst h; simp only [internalRemovePeer, getS_sendToClient, getS_setS_self]
  · rw [getS_internalRemovePeer_ne _ _ _ _ h]

theorem ownAddress_internalRemovePeer (w : World) (p : Nat) (id : Int) (q : Nat) :
    (getS (internalRemovePeer w p id) q).ownAddress = (getS w q).ownAddress := by
  by_cases h : q = p
  · subst h; simp only [internalRemovePeer, getS_sendToClient, getS_setS_self]
  · rw [getS_internalRemovePeer_ne _ _ _ _ h]

theorem protoDisposed_internalRemovePeer (w : World) (p : Nat) (id : Int) (q : Nat) :
    (getS (internalRemovePeer w p id) q).protoDisposed = (getS w q).protoDisposed := by
  by_cases h : q = p
  · subst h; simp only [internalRemovePeer, getS_sendToClient, getS_setS_self]
  · rw [getS_internalRemovePeer_ne _ _ _ _ h]

theorem listeners_internalRemovePeer (w : World) (p : Nat) (id : Int) :
    (internalRemovePeer w p id).listeners = w.listeners := by
  simp only [internalRemovePeer, sendToClient_listeners, setS_listeners]

theorem thrown_internalRemovePeer (w : World) (p : Nat) (id : Int) :
    (internalRemovePeer w p id).thrown = w.thrown := by
  simp only [internalRemovePeer, sendToClient_thrown, setS_thrown]

theorem disconnect_eq_none {w : World} {p : Nat} {k : Int}
    (hc : conlookup (getS w p).connections k = none) : disconnect w p k = w := by
  simp [disconnect, hc]

theorem disconnect_eq_noRev {w : World} {p : Nat} {k : Int} {o : Nat}
    (hc : conlookup (getS w p).connections k = some o)
    (hf : findPeerConnectionId (getS w o) p = none) :
    disconnect w p k = { w with errlogs := w.errlogs + 1 } := by
  simp [disconnect, hc, hf]

theorem disconnect_eq_some {w : World} {p : Nat} {k : Int} {o : Nat} {m : Int}
    (hc : conlookup (getS w p).connections k = some o)
    (hf : findPeerConnectionId (getS w o) p = some m) :
    disconnect w p k = internalRemovePeer (internalRemovePeer w p k) o m := by
  simp [disconnect, hc, hf]

theorem sstate_disconnect (w : World) (p : Nat) (k : Int) (q : Nat) :
    (getS (disconnect w p k) q).sstate = (getS w q).sstate := by
  unfold disconnect
  split
  · rfl
  · split
    · rfl
    · simp only [sstate_internalRemovePeer]

theorem ownAddress_disconnect (w : World) (p : Nat) (k : Int) (q : Nat) :
    (getS (disconnect w p k) q).ownAddress = (getS w q).ownAddress := by
  unfold disconnect
  split
  · rfl
  · split
    · rfl
    · simp only [ownAddress_internalRemovePeer]

theorem protoDisposed_disconnect (w : World) (p : Nat) (k : Int) (q : Nat) :
    (getS (disconnect w p k) q).protoDisposed = (getS w q).protoDisposed := by
  unfold disconnect
  split
  · rfl
  · split
    · rfl
    · simp only [protoDisposed_internalRemovePeer]

theorem listeners_disconnect (w : World) (p : Nat) (k : Int) :
    (disconnect w p k).listeners = w.listeners := by
  unfold disconnect
  split
  · rfl
  · split
    · rfl
    · simp only [listeners_internalRemovePeer]

theorem thrown_disconnect (w : World) (p : Nat) (k : Int) :
    (disconnect w p k).thrown = w.thrown := by
  unfold disconnect
  split
  · rfl
  · split
    · rfl
    · simp only [thrown_internalRemovePeer]

theorem disconnectAll_cons (w : World) (p : Nat) (k : Int) (t : List Int) :
    disconnectAll w p (k :: t) = disconnectAll (disconnect w p k) p t := rfl

theorem sstate_disconnectAll (p : Nat) (q : Nat) :
    ∀ (ks : List Int) (w : World),
      (getS (disconnectAll w p ks) q).sstate = (getS w q).sstate := by
  intro ks
  induction ks with
  | nil => intro w; rfl
  | cons k t ih =>
    intro w
    show (getS (disconnectAll (disconnect w p k) p t) q).sstate = _
    rw [ih, sstate_disconnect]

theorem ownAddress_disconnectAll (p : Nat) (q : Nat) :
    ∀ (ks : List Int) (w : World),
      (getS (disconnectAll w p ks) q).ownAddress = (getS w q).ownAddress := by
  intro ks
  induction ks with
  | nil => intro w; rfl
  | cons k t ih =>
    intro w
    show (getS (disconnectAll (disconnect w p k) p t) q).ownAddress = _
    rw [ih, ownAddress_disconnect]

theorem protoDisposed_disconnectAll (p : Nat) (q : Nat) :
    ∀ (ks : List Int) (w : World),
      (getS (disconnectAll w p ks) q).protoDisposed = (getS w q).protoDisposed := by
  intro ks
  induction ks with
  | nil => intro w; rfl
  | cons k t ih =>
    intro w
    show (getS (disconnectAll (disconnect w p k) p t) q).protoDisposed = _
    rw [ih, protoDisposed_disconnect]

theorem thrown_disconnectAll (p : Nat) :
    ∀ (ks : List Int) (w : World), (disconnectAll w p ks).thrown = w.thrown := by
  intro ks
  induction ks with
  | nil => intro w; rfl
  | cons k t ih =>
    intro w
    show (disconnectAll (disconnect w p k) p t).thrown = _
    rw [ih, thrown_disconnect]

theorem peers_removeListener (w : World) (p : Nat) (k : String) :
    (removeListener w p k).peers = w.peers := by
  simp only [removeListener]
  split
  · rfl
  · split <;> rfl

theorem getS_removeListener (w : World) (p : Nat) (k : String) (q : Nat) :
    getS (removeListener w p k) q = getS w q := by
  unfold getS
  rw [peers_removeListener]

theorem trace_removeListener (w : World) (p : Nat) (k : String) :
    (removeListener w p k).trace = w.trace := by
  simp only [removeListener]
  split
  · rfl
  · split <;> rfl

theorem getS_stopListen_ne (w : World) (p : Nat) (q : Nat) (h : q ≠ p) :
    getS (stopListen w p) q = getS w q := by
  simp only [stopListen, onStopListening]
  split
  · exact getS_removeListener _ _ _ _
  · split
    · exact getS_removeListener _ _ _ _
    · rw [getS_setS_ne _ _ _ _ h, getS_sendToClient, getS_removeListener]

theorem sstate_stopListen (w : World) (p : Nat) (q : Nat) :
    (getS (stopListen w p) q).sstate = (getS w q).sstate := by
  by_cases h : q = p
  · subst h
    simp only [stopListen, onStopListening]
    split
    · rw [getS_removeListener]
    · split
      · show (getS (removeListener w q _) q).sstate = _
        rw [getS_removeListener]
      · rw [getS_setS_self]
        simp only [getS_sendToClient, getS_removeListener]
  · rw [getS_stopListen_ne _ _ _ h]

theorem protoDisposed_stopListen (w : World) (p : Nat) (q : Nat) :
    (getS (stopListen w p) q).protoDisposed = (getS w q).protoDisposed := by
  by_cases h : q = p
  · subst h
    simp only [stopListen, onStopListening]
    split
    · rw [getS_removeListener]
    · split
      · show (getS (removeListener w q _) q).protoDisposed = _
        rw [getS_removeListener]
      · rw [getS_setS_self]
        simp only [getS_sendToClient, getS_removeListener]
  · rw [getS_stopListen_ne _ _ _ h]

theorem getS_onCleanup (w : World) (p : Nat) (q : Nat) :
    getS (onCleanup w p) q = getS w q := by
  unfold onCleanup removeConnection
  split <;> rfl

theorem trace_onCleanup (w : World) (p : Nat) : (onCleanup w p).trace = w.trace := by
  unfold onCleanup removeConnection
  split <;> rfl

theorem thrown_onCleanup (w : World) (p : Nat) : (onCleanup w p).thrown = w.thrown := by
  unfold onCleanup removeConnection
  split <;> rfl

theorem listeners_onCleanup (w : World) (p : Nat) :
    (onCleanup w p).listeners = w.listeners := by
  unfold onCleanup removeConnection
  split <;> rfl

theorem cleanupF_of_disc (fuel : Nat) (w : World) (p : Nat)
    (h : (getS w p).sstate = SignalingConnectionState.Disconnecting ∨
         (getS w p).sstate = SignalingConnectionState.Disconnected) :
    cleanupF fuel w p = w := by
  cases fuel with
  | zero => rfl
  | succ f => simp only [cleanupF, if_pos h]

theorem cleanup_of_disc (w : World) (p : Nat)
    (h : (getS w p).sstate = SignalingConnectionState.Disconnecting ∨
         (getS w p).sstate = SignalingConnectionState.Disconnected) :
    cleanup w p = w :=
  cleanupF_of_disc 2 w p h

theorem sstate_setStateOf_self (w : World) (p : Nat) (st : SignalingConnectionState) :
    (getS (setStateOf w p st) p).sstate = st := by
  simp only [setStateOf, getS_setS_self]

theorem getS_setStateOf_ne (w : World) (p q : Nat) (st : SignalingConnectionState)
    (h : q ≠ p) : getS (setStateOf w p st) q = getS w q := by
  simp only [setStateOf]
  exact getS_setS_ne _ _ _ _ h

theorem trace_setStateOf (w : World) (p : Nat) (st : SignalingConnectionState) :
    (setStateOf w p st).trace = w.trace := rfl

theorem trace_markDisposed (w : World) (p : Nat) : (markDisposed w p).trace = w.trace := rfl

theorem sstate_markDisposed (w : World) (p : Nat) (q : Nat) :
    (getS (markDisposed w p) q).sstate = (getS w q).sstate := by
  by_cases h : q = p
  · subst h; simp only [markDisposed, getS_setS_self]
  · simp only [markDisposed]; rw [getS_setS_ne _ _ _ _ h]

/-- One unfolding of the cleanup body in the non-guarded case, with the
re-entrant inner call resolved: by the time protocol.dispose raises
onNetworkClosed again the state is Disconnecting, so that inner cleanup
returns immediately. -/
theorem cleanupF_succ_eq (fuel : Nat) (w : World) (p : Nat)
    (hg : ¬((getS w p).sstate = SignalingConnectionState.Disconnecting ∨
            (getS w p).sstate = SignalingConnectionState.Disconnected)) :
    cleanupF (fuel + 1) w p =
      (let w2 := onCleanup (setStateOf w p SignalingConnectionState.Disconnecting) p
       let w3 := disconnectAll w2 p ((getS w2 p).connections.map (fun e => e.1))
       let w4 := if (getS w3 p).ownAddress ≠ none then stopListen w3 p else w3
       if w4.thrown then w4
       else if (getS w4 p).protoDisposed then
         setStateOf w4 p SignalingConnectionState.Disconnected
       else setStateOf (markDisposed w4 p) p SignalingConnectionState.Disconnected) := by
  simp only [cleanupF, if_neg hg]
  set w2 := onCleanup (setStateOf w p SignalingConnectionState.Disconnecting) p with hw2
  set w3 := disconnectAll w2 p ((getS w2 p).connections.map (fun e => e.1)) with hw3
  set w4 := if (getS w3 p).ownAddress ≠ none then stopListen w3 p else w3 with hw4
  have hst3 : (getS w3 p).sstate = SignalingConnectionState.Disconnecting := by
    rw [hw3, sstate_disconnectAll, hw2, getS_onCleanup, sstate_setStateOf_self]
  have hst4 : (getS w4 p).sstate = SignalingConnectionState.Disconnecting := by
    rw [hw4]
    split
    · rw [sstate_stopListen]; exact hst3
    · exact hst3
  rw [cleanupF_of_disc fuel w4 p (Or.inl hst4)]
  by_cases ht : w4.thrown
  · simp [ht]
  · simp [ht]

theorem sstate_cleanup (w : World) (p : Nat) :
    (getS (cleanup w p) p).sstate = SignalingConnectionState.Disconnecting ∨
    (getS (cleanup w p) p).sstate = SignalingConnectionState.Disconnected := by
  by_cases hg : (getS w p).sstate = SignalingConnectionState.Disconnecting ∨
      (getS w p).sstate = SignalingConnectionState.Disconnected
  · rw [cleanup_of_disc w p hg]; exact hg
  · have he := cleanupF_succ_eq 1 w p hg
    show (getS (cleanupF 2 w p) p).sstate = _ ∨ (getS (cleanupF 2 w p) p).sstate = _
    rw [he]
    dsimp only
    set w2 := onCleanup (setStateOf w p SignalingConnectionState.Disconnecting) p with hw2
    set w3 := disconnectAll w2 p ((getS w2 p).connections.map (fun e => e.1)) with hw3
    set w4 := if (getS w3 p).ownAddress ≠ none then stopListen w3 p else w3 with hw4
    have hst3 : (getS w3 p).sstate = SignalingConnectionState.Disconnecting := by
      rw [hw3, sstate_disconnectAll, hw2, getS_onCleanup, sstate_setStateOf_self]
    have hst4 : (getS w4 p).sstate = SignalingConnectionState.Disconnecting := by
      rw [hw4]
      split
      · rw [sstate_stopListen]; exact hst3
      · exact hst3
    split
    · exact Or.inl hst4
    · split
      · exact Or.inr (sstate_setStateOf_self _ _ _)
      · exact Or.inr (sstate_setStateOf_self _ _ _)

theorem sendToClient_trace_of_notConnected (w : World) (p : Nat) (e : NetworkEvent)
    (h : ¬ (getS w p).sstate = SignalingConnectionState.Connected) :
    (sendToClient w p e).trace = w.trace := by
  rw [sendToClient_trace, if_neg h]

theorem trace_internalRemovePeer_of_notConnected (w : World) (p : Nat) (id : Int)
    (h : ¬ (getS w p).sstate = SignalingConnectionState.Connected) :
    (internalRemovePeer w p id).trace = w.trace := by
  simp only [internalRemovePeer, sendToClient_trace, setS_trace, getS_setS_self]
  split
  · rename_i hc; exact absurd hc h
  · rfl

theorem trace_filter_internalRemovePeer_ne (w : World) (p B : Nat) (id : Int) (h : ¬ p = B) :
    (internalRemovePeer w p id).trace.filter (fun e => e.1 == B)
      = w.trace.filter (fun e => e.1 == B) := by
  simp only [internalRemovePeer, sendToClient_trace, setS_trace, getS_setS_self]
  split
  · rw [List.filter_append]
    simp [h]
  · rfl

theorem trace_filter_disconnect_self (w : World) (p : Nat) (k : Int)
    (h : (getS w p).sstate = SignalingConnectionState.Disconnecting) :
    (disconnect w p k).trace.filter (fun e => e.1 == p)
      = w.trace.filter (fun e => e.1 == p) := by
  have hnc : ¬ (getS w p).sstate = SignalingConnectionState.Connected := by simp [h]
  cases hc : conlookup (getS w p).connections k with
  | none => rw [disconnect_eq_none hc]
  | some otherPeer =>
    cases hf : findPeerConnectionId (getS w otherPeer) p with
    | none => rw [disconnect_eq_noRev hc hf]
    | some idOfOther =>
      rw [disconnect_eq_some hc hf]
      have h1 : (internalRemovePeer w p k).trace = w.trace :=
        trace_internalRemovePeer_of_notConnected _ _ _ hnc
      by_cases ho : otherPeer = p
      · subst ho
        have h2 : (internalRemovePeer (internalRemovePeer w otherPeer k) otherPeer idOfOther).trace
            = (internalRemovePeer w otherPeer k).trace := by
          refine trace_internalRemovePeer_of_notConnected _ _ _ ?_
          rw [sstate_internalRemovePeer]
          exact hnc
        rw [h2, h1]
      · rw [trace_filter_internalRemovePeer_ne _ _ _ _ ho, h1]

theorem trace_filter_disconnectAll_self (p : Nat) :
    ∀ (ks : List Int) (w : World),
      (getS w p).sstate = SignalingConnectionState.Disconnecting →
      (disconnectAll w p ks).trace.filter (fun e => e.1 == p)
        = w.trace.filter (fun e => e.1 == p) := by
  intro ks
  induction ks with
  | nil => intro w _; rfl
  | cons k t ih =>
    intro w h
    show (disconnectAll (disconnect w p k) p t).trace.filter _ = _
    rw [ih _ (by rw [sstate_disconnect]; exact h), trace_filter_disconnect_self _ _ _ h]

theorem trace_stopListen_of_notConnected (w : World) (p : Nat)
    (h : ¬ (getS w p).sstate = SignalingConnectionState.Connected) :
    (stopListen w p).trace = w.trace := by
  simp only [stopListen, onStopListening]
  split
  · exact trace_removeListener _ _ _
  · split
    · show (removeListener w p _).trace = w.trace
      exact trace_removeListener _ _ _
    · have hnc : ¬ (getS (removeListener w p (addrKey (getS w p).ownAddress)) p).sstate
          = SignalingConnectionState.Connected := by
        rw [getS_removeListener]; exact h
      rw [setS_trace, sendToClient_trace, if_neg hnc, trace_removeListener]

theorem trace_filter_cleanup_self (w : World) (p : Nat) :
    (cleanup w p).trace.filter (fun e => e.1 == p)
      = w.trace.filter (fun e => e.1 == p) := by
  by_cases hg : (getS w p).sstate = SignalingConnectionState.Disconnecting ∨
      (getS w p).sstate = SignalingConnectionState.Disconnected
  · rw [cleanup_of_disc w p hg]
  · show (cleanupF 2 w p).trace.filter _ = _
    rw [cleanupF_succ_eq 1 w p hg]
    dsimp only
    set w2 := onCleanup (setStateOf w p SignalingConnectionState.Disconnecting) p with hw2
    set w3 := disconnectAll w2 p ((getS w2 p).connections.map (fun e => e.1)) with hw3
    set w4 := if (getS w3 p).ownAddress ≠ none then stopListen w3 p else w3 with hw4
    have h2t : w2.trace = w.trace := by rw [hw2, trace_onCleanup, trace_setStateOf]
    have h2s : (getS w2 p).sstate = SignalingConnectionState.Disconnecting := by
      rw [hw2, getS_onCleanup, sstate_setStateOf_self]
    have h3 : w3.trace.filter (fun e => e.1 == p) = w2.trace.filter (fun e => e.1 == p) := by
      rw [hw3]; exact trace_filter_disconnectAll_self p _ w2 h2s
    have h3s : (getS w3 p).sstate = SignalingConnectionState.Disconnecting := by
      rw [hw3, sstate_disconnectAll]; exact h2s
    have h4 : w4.trace.filter (fun e => e.1 == p) = w3.trace.filter (fun e => e.1 == p) := by
      rw [hw4]
      split
      · rw [trace_stopListen_of_notConnected _ _ (by simp [h3s])]
      · rfl
    split
    · rw [h4, h3, h2t]
    · split
      · rw [trace_setStateOf, h4, h3, h2t]
      · rw [trace_setStateOf, trace_markDisposed, h4, h3, h2t]

/-- C2 counterexample: a session in state Disconnecting has its outbound send
dropped (the world, and in particular the trace, is unchanged), contradicting
the claim that sends are permitted while Disconnecting and that the cleanup
events reach the session's own client. -/
theorem sendToClient_drops_in_disconnecting :
    (getS worldDisconnecting 0).sstate = SignalingConnectionState.Disconnecting ∧
    sendToClient worldDisconnecting 0 ⟨NetEventType.Disconnected, 16384, Payload.empty⟩
      = worldDisconnecting := by
  exact ⟨rfl, rfl⟩

/-- C2 amended: outbound sends reach the client only while the state is
Connected; in every other state (Disconnecting included) they are dropped.
Consequently a session's own cleanup delivers no event to that session's
client (events to the still-Connected partner are delivered, cf. C3). -/
theorem sendToClient_gate_connected_only :
    (∀ (w : World) (p : Nat) (evt : NetworkEvent),
      (getS w p).sstate = SignalingConnectionState.Connected →
      sendToClient w p evt = { w with trace := w.trace ++ [(p, evt)] }) ∧
    (∀ (w : World) (p : Nat) (evt : NetworkEvent),
      ¬ (getS w p).sstate = SignalingConnectionState.Connected →
      sendToClient w p evt = w) ∧
    (∀ (w : World) (p : Nat),
      (cleanup w p).trace.filter (fun e => e.1 == p)
        = w.trace.filter (fun e => e.1 == p)) := by
  refine ⟨?_, ?_, trace_filter_cleanup_self⟩
  · intro w p evt h
    simp [sendToClient, h]
  · intro w p evt h
    simp [sendToClient, h]

/-- Witness for C2's amended theorem at concrete inputs. -/
theorem sendToClient_gate_connected_only_witness :
    ((getS worldPaired 0).sstate = SignalingConnectionState.Connected ∧
      sendToClient worldPaired 0 ⟨NetEventType.Warning, 0, Payload.empty⟩
        = { worldPaired with
            trace := worldPaired.trace ++ [(0, ⟨NetEventType.Warning, 0, Payload.empty⟩)] }) ∧
    (¬ (getS worldDisconnecting 0).sstate = SignalingConnectionState.Connected ∧
      sendToClient worldDisconnecting 0 ⟨NetEventType.Warning, 0, Payload.empty⟩
        = worldDisconnecting) := by
  refine ⟨⟨by decide, ?_⟩, ⟨by decide, ?_⟩⟩
  · exact sendToClient_gate_connected_only.1 worldPaired 0 _ (by decide)
  · exact sendToClient_gate_connected_only.2.1 worldDisconnecting 0 _ (by decide)

/-- C1 counterexample: session 0 is the sole listener on "a"; its own
connection request to "a" is accepted, producing two NewConnection events and
two pair-map entries, and no ConnectionFailed event is ever emitted —
contradicting the claim that a self-only listener leads to a denial with no
pair-map entries. -/
theorem onConnectionRequest_self_accepted :
    llookup worldListening.listeners "a" = some [0] ∧
    (getS worldSelfConnect 0).connections = [(16384, 0), (1, 0)] ∧
    worldSelfConnect.trace =
      [(0, ⟨NetEventType.ServerInitialized, INVALID, Payload.str "a"⟩),
       (0, ⟨NetEventType.NewConnection, 16384, Payload.empty⟩),
       (0, ⟨NetEventType.NewConnection, 1, Payload.empty⟩)] ∧
    ∀ e ∈ worldSelfConnect.trace, ¬ e.2.ety = NetEventType.ConnectionFailed := by
  decide

/-- C1 amended: a connection request is accepted exactly when the listener
list of the address has exactly one entry — even when that entry is the
requesting session itself, which then gets paired with itself; it is denied
when the address has no listener list (or an empty one) and when several
sessions share the address (with a warning log), and a denial creates no
pair-map entry. -/
theorem onConnectionRequest_characterization :
    (∀ (w : World) (p : Nat) (a : Option String) (id : Int) (q : Nat),
      llookup w.listeners (addrKey a) = some [q] →
      onConnectionRequest w p a id
        = acceptOutgoingConnection (acceptIncomingConnection w q p) p q id) ∧
    (∀ (w : World) (p : Nat) (a : Option String) (id : Int),
      llookup w.listeners (addrKey a) = none →
      onConnectionRequest w p a id = denyConnection w p a id ∧
      (∀ r, (getS (onConnectionRequest w p a id) r).connections
          = (getS w r).connections)) ∧
    (∀ (w : World) (p : Nat) (a : Option String) (id : Int) (l : List Nat),
      llookup w.listeners (addrKey a) = some l → ¬ l.length = 1 →
      onConnectionRequest w p a id
        = denyConnection
            (if 1 < l.length then { w with warnlogs := w.warnlogs + 1 } else w) p a id ∧
      (∀ r, (getS (onConnectionRequest w p a id) r).connections
          = (getS w r).connections)) := by
  refine ⟨?_, ?_, ?_⟩
  · intro w p a id q h
    simp [onConnectionRequest, h]
  · intro w p a id h
    constructor
    · simp [onConnectionRequest, h]
    · intro r
      simp only [onConnectionRequest, h, denyConnection, getS_sendToClient]
  · intro w p a id l h hlen
    constructor
    · simp only [onConnectionRequest, h, if_neg hlen]
      split

      · rfl
      · rfl
    · intro r
      simp only [onConnectionRequest, h, if_neg hlen, denyConnection, getS_sendToClient]
      split
      · rw [getS_sendToClient]
        rfl
      · rw [getS_sendToClient]

/-- Witness for C1's amended theorem: the self-connect world exercises the
singleton-accept branch, the paired world (no listeners) the deny branch. -/
theorem onConnectionRequest_characterization_witness :
    (llookup worldListening.listeners (addrKey (some "a")) = some [0] ∧
      onConnectionRequest worldListening 0 (some "a") 1
        = acceptOutgoingConnection (acceptIncomingConnection worldListening 0 0) 0 0 1) ∧
    (llookup worldPaired.listeners (addrKey (some "b")) = none ∧
      onConnectionRequest worldPaired 0 (some "b") 7
        = denyConnection worldPaired 0 (some "b") 7) := by
  refine ⟨⟨by decide, ?_⟩, ⟨by decide, ?_⟩⟩
  · exact onConnectionRequest_characterization.1 worldListening 0 (some "a") 1 0 (by decide)
  · exact (onConnectionRequest_characterization.2.1 worldPaired 0 (some "b") 7 (by decide)).1

/-- C4: a reachable quiescent state violating pair symmetry. One admitted
session listens on "a" and then requests a connection to "a"; the pool pairs
it with itself under two distinct ids (16384 and 1), so the unique-reverse-id
symmetry fails. The code's own disconnect path logs asymmetric maps as a bug,
so this is evidence for a code bug rather than a wrong claim. -/
theorem pairSym_violated_reachable :
    Reachable worldSelfConnect ∧
    (getS worldSelfConnect 0).connections = [(16384, 0), (1, 0)] ∧
    pairSymHolds worldSelfConnect = false := by
  refine ⟨?_, by decide, by decide⟩
  have h0 : Reachable worldOnePeer := Reachable.newPeer (Reachable.init false)
  have h1 : Reachable (handleMessage worldOnePeer 0
      ⟨NetEventType.ServerInitialized, INVALID, Payload.str "a"⟩) :=
    Reachable.message _ h0 (by decide)
  have h2 : Reachable (handleMessage worldListening 0
      ⟨NetEventType.NewConnection, 1, Payload.str "a"⟩) :=
    Reachable.message _ (show Reachable worldListening from h1) (by decide)
  exact h2

theorem conlookup_mem {l : List (Int × Nat)} {k : Int} {v : Nat}
    (h : conlookup l k = some v) : (k, v) ∈ l := by
  unfold conlookup at h
  cases hf : l.find? (fun e => e.1 == k) with
  | none => rw [hf] at h; exact absurd h (by simp)
  | some e =>
    rw [hf] at h
    have he : e ∈ l := List.mem_of_find?_eq_some hf
    have hk : e.1 = k := by have := List.find?_some hf; simpa using this
    have hv : e.2 = v := by simpa using h
    rw [← hk, ← hv, Prod.mk.eta]
    exact he

theorem findPeer_mem {s : Session} {q : Nat} {m : Int}
    (h : findPeerConnectionId s q = some m) : (m, q) ∈ s.connections := by
  unfold findPeerConnectionId at h
  cases hf : s.connections.find? (fun e => e.2 == q) with
  | none => rw [hf] at h; exact absurd h (by simp)
  | some e =>
    rw [hf] at h
    have he : e ∈ s.connections := List.mem_of_find?_eq_some hf
    have hq : e.2 = q := by have := List.find?_some hf; simpa using this
    have hm : e.1 = m := by simpa using h
    rw [← hq, ← hm, Prod.mk.eta]
    exact he

theorem nodupkeys_eq {l : List (Int × Nat)} {k : Int} {v v' : Nat}
    (hn : (l.map (fun e => e.1)).Nodup) (h1 : (k, v) ∈ l) (h2 : (k, v') ∈ l) : v = v' := by
  induction l with
  | nil => cases h1
  | cons e t ih =>
    rw [List.map_cons, List.nodup_cons] at hn
    rcases List.mem_cons.mp h1 with he1 | ht1
    · rcases List.mem_cons.mp h2 with he2 | ht2
      · rw [← he1] at he2; exact (Prod.mk.injEq _ _ _ _ ▸ he2).2.symm ▸ rfl
      · exfalso
        exact hn.1 (by rw [← he1] at *; exact List.mem_map_of_mem (fun e => e.1) ht2)
    · rcases List.mem_cons.mp h2 with he2 | ht2
      · exfalso
        exact hn.1 (by rw [← he2] at *; exact List.mem_map_of_mem (fun e => e.1) ht1)
      · exact ih hn.2 ht1 ht2

theorem conlookup_of_mem_nodup {l : List (Int × Nat)} {k : Int} {v : Nat}
    (hn : (l.map (fun e => e.1)).Nodup) (h : (k, v) ∈ l) : conlookup l k = some v := by
  cases hc : conlookup l k with
  | none =>
    exfalso
    unfold conlookup at hc
    cases hf : l.find? (fun e => e.1 == k) with
    | none =>
      have := List.find?_eq_none.mp hf (k, v) h
      simp at this
    | some e => rw [hf] at hc; simp at hc
  | some v2 =>
    have := nodupkeys_eq hn (conlookup_mem hc) h
    rw [this]

theorem delConn_filter_comm (l : List (Int × Nat)) (k : Int) (P : Int × Nat → Bool) :
    (delConn l k).filter P = delConn (l.filter P) k := by
  unfold delConn
  exact List.filter_comm _ _ _

theorem nodup_keys_delConn {l : List (Int × Nat)} {k : Int}
    (hn : (l.map (fun e => e.1)).Nodup) : ((delConn l k).map (fun e => e.1)).Nodup :=
  ((List.filter_sublist l).map (fun e => e.1)).nodup hn

theorem trace_internalRemovePeer_of_connected (w : World) (p : Nat) (id : Int)
    (h : (getS w p).sstate = SignalingConnectionState.Connected) :
    (internalRemovePeer w p id).trace
      = w.trace ++ [(p, ⟨NetEventType.Disconnected, id, Payload.empty⟩)] := by
  simp only [internalRemovePeer, sendToClient_trace, setS_trace, getS_setS_self]
  split
  · rfl
  · rename_i hc; exact absurd h hc

theorem connections_internalRemovePeer_self (w : World) (p : Nat) (id : Int) :
    (getS (internalRemovePeer w p id) p).connections
      = delConn (getS w p).connections id := by
  simp only [internalRemovePeer, getS_sendToClient, getS_setS_self]

theorem connections_setStateOf (w : World) (p : Nat) (st : SignalingConnectionState)
    (q : Nat) :
    (getS (setStateOf w p st) q).connections = (getS w q).connections := by
  by_cases h : q = p
  · subst h; simp only [setStateOf, getS_setS_self]
  · simp only [setStateOf]; rw [getS_setS_ne _ _ _ _ h]

theorem connections_markDisposed (w : World) (p : Nat) (q : Nat) :
    (getS (markDisposed w p) q).connections = (getS w q).connections := by
  by_cases h : q = p
  · subst h; simp only [markDisposed, getS_setS_self]
  · simp only [markDisposed]; rw [getS_setS_ne _ _ _ _ h]

theorem connections_stopListen (w : World) (p : Nat) (q : Nat) :
    (getS (stopListen w p) q).connections = (getS w q).connections := by
  by_cases h : q = p
  · subst h
    simp only [stopListen, onStopListening]
    split
    · rw [getS_removeListener]
    · split
      · show (getS (removeListener w q _) q).connections = _
        rw [getS_removeListener]
      · rw [getS_setS_self]
        simp only [getS_sendToClient, getS_removeListener]
  · rw [getS_stopListen_ne _ _ _ h]

theorem trace_stopListen_cases (w : World) (p : Nat) :
    (stopListen w p).trace = w.trace ∨
    (stopListen w p).trace
      = w.trace ++ [(p, ⟨NetEventType.ServerClosed, INVALID, Payload.empty⟩)] := by
  simp only [stopListen, onStopListening]
  split
  · exact Or.inl (trace_removeListener _ _ _)
  · split
    · exact Or.inl (trace_removeListener _ _ _)
    · rw [setS_trace, sendToClient_trace]
      split
      · exact Or.inr (by rw [trace_removeListener])
      · exact Or.inl (trace_removeListener _ _ _)

theorem delConn_of_no_key {F : List (Int × Nat)} {x : Int} (h : ∀ e ∈ F, ¬ e.1 = x) :
    delConn F x = F := by
  unfold delConn
  exact List.filter_eq_self.mpr (fun e he => by simpa using h e he)

/-- Pair-teardown iterations whose keys carry no entry pointing at B leave B
untouched, keep the filtered view of A's map and its key uniqueness, and emit
no event to B. -/
theorem disconnectAll_away (A B : Nat) (hne : ¬ A = B) (F : List (Int × Nat)) :
    ∀ (ks : List Int) (w : World),
      (getS w A).connections.filter (fun e => e.2 == B) = F →
      ((getS w A).connections.map (fun e => e.1)).Nodup →
      (∀ e ∈ F, e.1 ∉ ks) →
      getS (disconnectAll w A ks) B = getS w B ∧
      (getS (disconnectAll w A ks) A).connections.filter (fun e => e.2 == B) = F ∧
      ((getS (disconnectAll w A ks) A).connections.map (fun e => e.1)).Nodup ∧
      (disconnectAll w A ks).trace.filter (fun e => e.1 == B)
        = w.trace.filter (fun e => e.1 == B) := by
  intro ks
  induction ks with
  | nil => intro w h1 h2 _; exact ⟨rfl, h1, h2, rfl⟩
  | cons k t ih =>
    intro w hfil hnod hks
    have hks1 : ∀ e ∈ F, e.1 ∉ t := fun e he hm => hks e he (List.mem_cons_of_mem _ hm)
    have hkk : ∀ e ∈ F, ¬ e.1 = k := by
      intro e he hek
      exact hks e he (hek ▸ List.mem_cons_self k t)
    rw [disconnectAll_cons]
    cases hc : conlookup (getS w A).connections k with
    | none =>
      rw [disconnect_eq_none hc]
      exact ih w hfil hnod hks1
    | some C =>
      have hCB : ¬ C = B := by
        intro hCB
        have hmem : (k, C) ∈ (getS w A).connections := conlookup_mem hc
        have hmf : (k, C) ∈ F := by
          rw [← hfil]
          exact List.mem_filter.mpr ⟨hmem, by simp [hCB]⟩
        exact hkk _ hmf rfl
      cases hf2 : findPeerConnectionId (getS w C) A with
      | none =>
        rw [disconnect_eq_noRev hc hf2]
        exact ih { w with errlogs := w.errlogs + 1 } hfil hnod hks1
      | some m =>
        rw [disconnect_eq_some hc hf2]
        have hBA : B ≠ A := fun h => hne h.symm
        have hBC : B ≠ C := fun h => hCB h.symm
        have hgB : getS (internalRemovePeer (internalRemovePeer w A k) C m) B = getS w B := by
          rw [getS_internalRemovePeer_ne _ _ _ _ hBC, getS_internalRemovePeer_ne _ _ _ _ hBA]
        have htr : (internalRemovePeer (internalRemovePeer w A k) C m).trace.filter
            (fun e => e.1 == B) = w.trace.filter (fun e => e.1 == B) := by
          rw [trace_filter_internalRemovePeer_ne _ _ _ _ hCB,
            trace_filter_internalRemovePeer_ne _ _ _ _ hne]
        by_cases hCA : C = A
        · subst hCA
          have hmA : (m, C) ∈ (getS w C).connections := findPeer_mem hf2
          have hconn : (getS (internalRemovePeer (internalRemovePeer w C k) C m) C).connections
              = delConn (delConn (getS w C).connections k) m := by
            rw [connections_internalRemovePeer_self, connections_internalRemovePeer_self]
          have hmne : ∀ e ∈ F, ¬ e.1 = m := by
            intro e he hem
            have heB : e.2 = B := by
              rw [← hfil] at he
              have := (List.mem_filter.mp he).2
              simpa using this
            have heC : e ∈ (getS w C).connections := by
              rw [← hfil] at he
              exact List.mem_of_mem_filter he
            have hBmem : (m, B) ∈ (getS w C).connections := by
              rw [← hem, ← heB, Prod.mk.eta]; exact heC
            exact hCB (nodupkeys_eq hnod hBmem hmA).symm
          have hfil2 : (getS (internalRemovePeer (internalRemovePeer w C k) C m) C).connections.filter
              (fun e => e.2 == B) = F := by
            rw [hconn, delConn_filter_comm, delConn_filter_comm, hfil,
              delConn_of_no_key hkk, delConn_of_no_key hmne]
          have hnod2 : ((getS (internalRemovePeer (internalRemovePeer w C k) C m) C).connections.map
              (fun e => e.1)).Nodup := by
            rw [hconn]
            exact nodup_keys_delConn (nodup_keys_delConn hnod)
          obtain ⟨ihB, ihF, ihN, ihT⟩ := ih _ hfil2 hnod2 hks1
          refine ⟨?_, ihF, ihN, ?_⟩
          · rw [ihB, hgB]
          · rw [ihT, htr]
        · have hAC : A ≠ C := fun h => hCA h.symm
          have hconn : (getS (internalRemovePeer (internalRemovePeer w A k) C m) A).connections
              = delConn (getS w A).connections k := by
            rw [getS_internalRemovePeer_ne _ _ _ _ hAC, connections_internalRemovePeer_self]
          have hfil2 : (getS (internalRemovePeer (internalRemovePeer w A k) C m) A).connections.filter
              (fun e => e.2 == B) = F := by
            rw [hconn, delConn_filter_comm, hfil, delConn_of_no_key hkk]
          have hnod2 : ((getS (internalRemovePeer (internalRemovePeer w A k) C m) A).connections.map
              (fun e => e.1)).Nodup := by
            rw [hconn]
            exact nodup_keys_delConn hnod
          obtain ⟨ihB, ihF, ihN, ihT⟩ := ih _ hfil2 hnod2 hks1
          refine ⟨?_, ihF, ihN, ?_⟩
          · rw [ihB, hgB]
          · rw [ihT, htr]

/-- The teardown iteration at the key of the A-B pairing: one Disconnected
event with B's reverse id goes to B's client, and both filtered views become
empty. -/
theorem disconnect_pair_step (w : World) (A B : Nat) (i j : Int) (hne : ¬ A = B)
    (hfilA : (getS w A).connections.filter (fun e => e.2 == B) = [(i, B)])
    (hnodA : ((getS w A).connections.map (fun e => e.1)).Nodup)
    (hfilB : (getS w B).connections.filter (fun e => e.2 == A) = [(j, A)])
    (hA : ¬ (getS w A).sstate = SignalingConnectionState.Connected)
    (hB : (getS w B).sstate = SignalingConnectionState.Connected) :
    (disconnect w A i).trace
      = w.trace ++ [(B, ⟨NetEventType.Disconnected, j, Payload.empty⟩)] ∧
    (getS (disconnect w A i) A).connections.filter (fun e => e.2 == B) = [] ∧
    ((getS (disconnect w A i) A).connections.map (fun e => e.1)).Nodup ∧
    (getS (disconnect w A i) B).connections.filter (fun e => e.2 == A) = [] ∧
    (getS (disconnect w A i) B).sstate = SignalingConnectionState.Connected := by
  have hBA : B ≠ A := fun h => hne h.symm
  have hmem : (i, B) ∈ (getS w A).connections := by
    refine List.mem_of_mem_filter (p := fun e => e.2 == B) ?_
    rw [hfilA]
    exact List.mem_singleton.mpr rfl
  have hc : conlookup (getS w A).connections i = some B := conlookup_of_mem_nodup hnodA hmem
  have hf : findPeerConnectionId (getS w B) A = some j :=
    findPeerConnectionId_of_filter _ _ _ hfilB
  rw [disconnect_eq_some hc hf]
  refine ⟨?_, ?_, ?_, ?_, ?_⟩
  · rw [trace_internalRemovePeer_of_connected _ _ _
      (by rw [sstate_internalRemovePeer]; exact hB),
      trace_internalRemovePeer_of_notConnected _ _ _ hA]
  · rw [getS_internalRemovePeer_ne _ _ _ _ hne, connections_internalRemovePeer_self,
      delConn_filter_comm, hfilA]
    simp [delConn]
  · rw [getS_internalRemovePeer_ne _ _ _ _ hne, connections_internalRemovePeer_self]
    exact nodup_keys_delConn hnodA
  · rw [connections_internalRemovePeer_self, getS_internalRemovePeer_ne _ _ _ _ hBA,
      delConn_filter_comm, hfilB]
    simp [delConn]
  · rw [sstate_internalRemovePeer, sstate_internalRemovePeer]
    exact hB

theorem disconnectAll_append (w : World) (p : Nat) (s u : List Int) :
    disconnectAll w p (s ++ u) = disconnectAll (disconnectAll w p s) p u := by
  unfold disconnectAll
  rw [List.foldl_append]

theorem getS_markDisposed_ne (w : World) (p q : Nat) (h : q ≠ p) :
    getS (markDisposed w p) q = getS w q := by
  simp only [markDisposed]
  exact getS_setS_ne _ _ _ _ h

theorem cleanup_eq_body (w : World) (p : Nat)
    (hg : ¬((getS w p).sstate = SignalingConnectionState.Disconnecting ∨
            (getS w p).sstate = SignalingConnectionState.Disconnected)) :
    cleanup w p =
      (let w2 := onCleanup (setStateOf w p SignalingConnectionState.Disconnecting) p
       let w3 := disconnectAll w2 p ((getS w2 p).connections.map (fun e => e.1))
       let w4 := if (getS w3 p).ownAddress ≠ none then stopListen w3 p else w3
       if w4.thrown then w4
       else if (getS w4 p).protoDisposed then
         setStateOf w4 p SignalingConnectionState.Disconnected
       else setStateOf (markDisposed w4 p) p SignalingConnectionState.Disconnected) :=
  cleanupF_succ_eq 1 w p hg

/-- C3: cleaning up a Connected session A that is pair-connected with a
still-Connected session B (each side holding exactly one entry for the other,
ids i and j) delivers exactly one Disconnected event, with id j, to B's
client, no other event to B, and removes the pairing's entries on both
sides; B stays Connected. -/
theorem cleanup_pair_propagation (w : World) (A B : Nat) (i j : Int)
    (hne : ¬ A = B)
    (hA : (getS w A).sstate = SignalingConnectionState.Connected)
    (hB : (getS w B).sstate = SignalingConnectionState.Connected)
    (hnodA : ((getS w A).connections.map (fun e => e.1)).Nodup)
    (hfilA : (getS w A).connections.filter (fun e => e.2 == B) = [(i, B)])
    (hfilB : (getS w B).connections.filter (fun e => e.2 == A) = [(j, A)]) :
    (cleanup w A).trace.filter (fun e => e.1 == B)
      = w.trace.filter (fun e => e.1 == B)
        ++ [(B, ⟨NetEventType.Disconnected, j, Payload.empty⟩)] ∧
    (getS (cleanup w A) A).connections.filter (fun e => e.2 == B) = [] ∧
    (getS (cleanup w A) B).connections.filter (fun e => e.2 == A) = [] ∧
    (getS (cleanup w A) B).sstate = SignalingConnectionState.Connected := by
  have hBA : B ≠ A := fun h => hne h.symm
  have hg : ¬((getS w A).sstate = SignalingConnectionState.Disconnecting ∨
      (getS w A).sstate = SignalingConnectionState.Disconnected) := by
    rw [hA]; simp
  rw [cleanup_eq_body w A hg]
  dsimp only
  set w2 := onCleanup (setStateOf w A SignalingConnectionState.Disconnecting) A with hw2
  set w3 := disconnectAll w2 A ((getS w2 A).connections.map (fun e => e.1)) with hw3
  set w4 := if (getS w3 A).ownAddress ≠ none then stopListen w3 A else w3 with hw4
  have e2conn : (getS w2 A).connections = (getS w A).connections := by
    rw [hw2, getS_onCleanup, connections_setStateOf]
  have e2B : getS w2 B = getS w B := by
    rw [hw2, getS_onCleanup, getS_setStateOf_ne _ _ _ _ hBA]
  have e2trace : w2.trace = w.trace := by rw [hw2, trace_onCleanup, trace_setStateOf]
  have e2sA : (getS w2 A).sstate = SignalingConnectionState.Disconnecting := by
    rw [hw2, getS_onCleanup, sstate_setStateOf_self]
  have hmemA : (i, B) ∈ (getS w A).connections := by
    refine List.mem_of_mem_filter (p := fun e => e.2 == B) ?_
    rw [hfilA]
    exact List.mem_singleton.mpr rfl
  have hiks : i ∈ (getS w A).connections.map (fun e => e.1) :=
    List.mem_map_of_mem (fun e => e.1) hmemA
  obtain ⟨s, t, hsplit⟩ := List.append_of_mem hiks
  have hnd : (s ++ i :: t).Nodup := hsplit ▸ hnodA
  rw [List.nodup_append] at hnd
  obtain ⟨hndS, hndIT, hdisj⟩ := hnd
  have hiT : i ∉ t := (List.nodup_cons.mp hndIT).1
  have hiS : i ∉ s := fun hm => hdisj hm (List.mem_cons_self i t)
  have hw3b : w3 = disconnectAll (disconnect (disconnectAll w2 A s) A i) A t := by
    rw [hw3, e2conn, hsplit, disconnectAll_append, disconnectAll_cons]
  obtain ⟨p1B, p1F, p1N, p1T⟩ := disconnectAll_away A B hne [(i, B)] s w2
    (by rw [e2conn]; exact hfilA) (by rw [e2conn]; exact hnodA)
    (by intro e he
        rw [List.mem_singleton] at he
        rw [he]
        exact hiS)
  have hfilBmid : (getS (disconnectAll w2 A s) B).connections.filter (fun e => e.2 == A)
      = [(j, A)] := by rw [p1B, e2B]; exact hfilB
  have hAmid : ¬ (getS (disconnectAll w2 A s) A).sstate
      = SignalingConnectionState.Connected := by
    rw [sstate_disconnectAll, e2sA]; simp
  have hBmid : (getS (disconnectAll w2 A s) B).sstate
      = SignalingConnectionState.Connected := by
    rw [p1B, e2B]; exact hB
  obtain ⟨tB, fA, nA2, fB, sB⟩ :=
    disconnect_pair_step (disconnectAll w2 A s) A B i j hne p1F p1N hfilBmid hAmid hBmid
  obtain ⟨p3B, p3F, p3N, p3T⟩ :=
    disconnectAll_away A B hne [] t (disconnect (disconnectAll w2 A s) A i) fA nA2
      (by intro e he; cases he)
  have w3B : getS w3 B = getS (disconnect (disconnectAll w2 A s) A i) B := by
    rw [hw3b]; exact p3B
  have w3trace : w3.trace.filter (fun e => e.1 == B)
      = w.trace.filter (fun e => e.1 == B)
        ++ [(B, ⟨NetEventType.Disconnected, j, Payload.empty⟩)] := by
    rw [hw3b, p3T, tB, List.filter_append, p1T, e2trace]
    simp
  have w3connA : (getS w3 A).connections.filter (fun e => e.2 == B) = [] := by
    rw [hw3b]; exact p3F
  have h4B : getS w4 B = getS w3 B := by
    rw [hw4]
    split
    · exact getS_stopListen_ne _ _ _ hBA
    · rfl
  have h4connA : (getS w4 A).connections = (getS w3 A).connections := by
    rw [hw4]
    split
    · exact connections_stopListen _ _ _
    · rfl
  have h4trace : w4.trace.filter (fun e => e.1 == B) = w3.trace.filter (fun e => e.1 == B) := by
    rw [hw4]
    split
    · rcases trace_stopListen_cases w3 A with h | h
      · rw [h]
      · rw [h, List.filter_append]
        simp [hne]
    · rfl
  split
  · refine ⟨by rw [h4trace, w3trace], ?_, ?_, ?_⟩
    · rw [h4connA]; exact w3connA
    · rw [h4B, w3B]; exact fB
    · rw [h4B, w3B]; exact sB
  · split
    · refine ⟨?_, ?_, ?_, ?_⟩
      · rw [trace_setStateOf, h4trace, w3trace]
      · rw [connections_setStateOf, h4connA]; exact w3connA
      · rw [getS_setStateOf_ne _ _ _ _ hBA, h4B, w3B]; exact fB
      · rw [getS_setStateOf_ne _ _ _ _ hBA, h4B, w3B]; exact sB
    · refine ⟨?_, ?_, ?_, ?_⟩
      · rw [trace_setStateOf, trace_markDisposed, h4trace, w3trace]
      · rw [connections_setStateOf, connections_markDisposed, h4connA]; exact w3connA
      · rw [getS_setStateOf_ne _ _ _ _ hBA, getS_markDisposed_ne _ _ _ hBA, h4B, w3B]
        exact fB
      · rw [getS_setStateOf_ne _ _ _ _ hBA, getS_markDisposed_ne _ _ _ hBA, h4B, w3B]
        exact sB

/-- Witness for C3 at the concrete paired world: cleanup of session 0
delivers exactly Disconnected(16384) to session 1 and clears both maps. -/
theorem cleanup_pair_propagation_witness :
    (¬ (0 : Nat) = 1 ∧
      (getS worldPaired 0).sstate = SignalingConnectionState.Connected ∧
      (getS worldPaired 1).sstate = SignalingConnectionState.Connected ∧
      ((getS worldPaired 0).connections.map (fun e => e.1)).Nodup ∧
      (getS worldPaired 0).connections.filter (fun e => e.2 == 1) = [(5, 1)] ∧
      (getS worldPaired 1).connections.filter (fun e => e.2 == 0) = [(16384, 0)]) ∧
    (cleanup worldPaired 0).trace.filter (fun e => e.1 == 1)
      = worldPaired.trace.filter (fun e => e.1 == 1)
        ++ [(1, ⟨NetEventType.Disconnected, 16384, Payload.empty⟩)] ∧
    (getS (cleanup worldPaired 0) 0).connections.filter (fun e => e.2 == 1) = [] ∧
    (getS (cleanup worldPaired 0) 1).connections.filter (fun e => e.2 == 0) = [] ∧
    (getS (cleanup worldPaired 0) 1).sstate = SignalingConnectionState.Connected := by
  refine ⟨⟨by decide, by decide, by decide, by decide, by decide, by decide⟩, ?_⟩
  exact cleanup_pair_propagation worldPaired 0 1 5 16384 (by decide) (by decide) (by decide)
    (by decide) (by decide) (by decide)

/-- Two worlds agreeing on the listener map, the exception flag, the sharing
flag, the peer counter, every session's own address, and every unallocated
session. The listener invariants only depend on these components. -/
def SameShape (w w' : World) : Prop :=
  w'.listeners = w.listeners ∧ w'.thrown = w.thrown ∧
  w'.addressSharing = w.addressSharing ∧ w'.nextPeer = w.nextPeer ∧
  (∀ q, (getS w' q).ownAddress = (getS w q).ownAddress) ∧
  (∀ q, w.nextPeer ≤ q → getS w' q = getS w q)

theorem sameShape_refl (w : World) : SameShape w w :=
  ⟨rfl, rfl, rfl, rfl, fun _ => rfl, fun _ _ => rfl⟩

theorem sameShape_trans {w1 w2 w3 : World} (h1 : SameShape w1 w2) (h2 : SameShape w2 w3) :
    SameShape w1 w3 := by
  obtain ⟨a1, b1, c1, d1, e1, f1⟩ := h1
  obtain ⟨a2, b2, c2, d2, e2, f2⟩ := h2
  refine ⟨a2.trans a1, b2.trans b1, c2.trans c1, d2.trans d1,
    fun q => (e2 q).trans (e1 q), fun q hq => ?_⟩
  rw [f2 q (by rw [d1]; exact hq), f1 q hq]

theorem sameShape_of_peers_eq {w w' : World} (hp : w'.peers = w.peers)
    (hl : w'.listeners = w.listeners) (ht : w'.thrown = w.thrown)
    (hs : w'.addressSharing = w.addressSharing) (hn : w'.nextPeer = w.nextPeer) :
    SameShape w w' :=
  ⟨hl, ht, hs, hn, fun q => by unfold getS; rw [hp], fun q _ => by unfold getS; rw [hp]⟩

theorem sameShape_sendToClient (w : World) (p : Nat) (e : NetworkEvent) :
    SameShape w (sendToClient w p e) := by
  refine sameShape_of_peers_eq ?_ ?_ ?_ ?_ ?_ <;> (unfold sendToClient; split <;> rfl)

theorem sameShape_setS_low {w : World} {p : Nat} {s : Session} (hp : p < w.nextPeer)
    (ho : s.ownAddress = (getS w p).ownAddress) : SameShape w (setS w p s) := by
  refine ⟨rfl, rfl, rfl, rfl, fun q => ?_, fun q hq => ?_⟩
  · by_cases h : q = p
    · subst h; rw [getS_setS_self, ho]
    · rw [getS_setS_ne _ _ _ _ h]
  · have : q ≠ p := fun h => absurd hp (by rw [← h]; exact not_lt.mpr hq)
    rw [getS_setS_ne _ _ _ _ this]

theorem sameShape_internalAddIncomingPeer {w : World} {p : Nat} (o : Nat)
    (hp : p < w.nextPeer) : SameShape w (internalAddIncomingPeer w p o) := by
  unfold internalAddIncomingPeer
  dsimp only
  refine sameShape_trans (sameShape_setS_low hp ?_) (sameShape_sendToClient _ _ _)
  rfl

theorem sameShape_internalAddOutgoingPeer {w : World} {p : Nat} (o : Nat) (id : Int)
    (hp : p < w.nextPeer) : SameShape w (internalAddOutgoingPeer w p o id) := by
  unfold internalAddOutgoingPeer
  dsimp only
  refine sameShape_trans (sameShape_setS_low hp ?_) (sameShape_sendToClient _ _ _)
  rfl

theorem sameShape_internalRemovePeer {w : World} {p : Nat} (id : Int)
    (hp : p < w.nextPeer) : SameShape w (internalRemovePeer w p id) := by
  unfold internalRemovePeer
  dsimp only
  refine sameShape_trans (sameShape_setS_low hp ?_) (sameShape_sendToClient _ _ _)
  rfl

theorem sameShape_disconnect {w : World} (p : Nat) (k : Int)
    (hhi : ∀ q, w.nextPeer ≤ q → getS w q = noSession) :
    SameShape w (disconnect w p k) := by
  cases hc : conlookup (getS w p).connections k with
  | none => rw [disconnect_eq_none hc]; exact sameShape_refl w
  | some o =>
    cases hf : findPeerConnectionId (getS w o) p with
    | none =>
      rw [disconnect_eq_noRev hc hf]
      exact sameShape_of_peers_eq rfl rfl rfl rfl rfl
    | some m =>
      rw [disconnect_eq_some hc hf]
      have hp : p < w.nextPeer := by
        by_contra hnp
        rw [hhi p (le_of_not_lt hnp)] at hc
        exact absurd hc (by simp [noSession, conlookup])
      have hol : o < w.nextPeer := by
        by_contra hno
        rw [hhi o (le_of_not_lt hno)] at hf
        exact absurd hf (by simp [noSession, findPeerConnectionId])
      have h1 := sameShape_internalRemovePeer (w := w) (p := p) k hp
      have h2 := sameShape_internalRemovePeer (w := internalRemovePeer w p k) (p := o) m
        (by rw [h1.2.2.2.1]; exact hol)
      exact sameShape_trans h1 h2

theorem sameShape_disconnectAll (p : Nat) :
    ∀ (ks : List Int) (w : World),
      (∀ q, w.nextPeer ≤ q → getS w q = noSession) →
      SameShape w (disconnectAll w p ks) := by
  intro ks
  induction ks with
  | nil => intro w _; exact sameShape_refl w
  | cons k t ih =>
    intro w hhi
    rw [disconnectAll_cons]
    have h1 := sameShape_disconnect p k hhi
    refine sameShape_trans h1 (ih _ ?_)
    intro q hq
    rw [h1.2.2.2.1] at hq
    rw [h1.2.2.2.2.2 q hq]
    exact hhi q hq

theorem sameShape_onCleanup (w : World) (p : Nat) : SameShape w (onCleanup w p) := by
  refine sameShape_of_peers_eq ?_ ?_ ?_ ?_ ?_ <;>
    (unfold onCleanup removeConnection; split <;> rfl)

theorem sameShape_setStateOf {w : World} {p : Nat} (st : SignalingConnectionState)
    (hp : p < w.nextPeer) : SameShape w (setStateOf w p st) :=
  sameShape_setS_low hp rfl

theorem sameShape_markDisposed {w : World} {p : Nat} (hp : p < w.nextPeer) :
    SameShape w (markDisposed w p) :=
  sameShape_setS_low hp rfl

theorem sameShape_sendData (w : World) (p : Nat) (id : Int) (msg : Option (List Nat))
    (rel : Bool) : SameShape w (sendData w p id msg rel) := by
  unfold sendData
  split
  · unfold forwardMessage
    exact sameShape_sendToClient _ _ _
  · exact sameShape_of_peers_eq rfl rfl rfl rfl rfl

theorem llookup_cons_pos {e : String × List Nat} {t : List (String × List Nat)}
    {k : String} (h : e.1 = k) : llookup (e :: t) k = some e.2 := by
  unfold llookup
  rw [List.find?_cons_of_pos _ (by simp only [beq_iff_eq]; exact h)]
  rfl

theorem llookup_cons_neg {e : String × List Nat} {t : List (String × List Nat)}
    {k : String} (h : ¬ e.1 = k) : llookup (e :: t) k = llookup t k := by
  unfold llookup
  rw [List.find?_cons_of_neg _ (by simp only [beq_iff_eq]; exact h)]

theorem lerase_cons_pos {e : String × List Nat} {t : List (String × List Nat)}
    {k : String} (h : e.1 = k) : lerase (e :: t) k = lerase t k := by
  simp [lerase, List.filter_cons, h]

theorem lerase_cons_neg {e : String × List Nat} {t : List (String × List Nat)}
    {k : String} (h : ¬ e.1 = k) : lerase (e :: t) k = e :: lerase t k := by
  simp [lerase, List.filter_cons, h]

theorem llookup_lset_self (L : List (String × List Nat)) (k : String) (v : List Nat) :
    llookup (lset L k v) k = some v := by
  induction L with
  | nil => simp [llookup, lset]
  | cons e t ih =>
    by_cases h : e.1 = k
    · simp only [lset, if_pos h]
      rw [show llookup ((k, v) :: t) k = some ((k, v) : String × List Nat).2 from
        llookup_cons_pos rfl]
    · simp only [lset, if_neg h]
      rw [llookup_cons_neg h]
      exact ih

theorem llookup_lset_ne (L : List (String × List Nat)) (k k2 : String) (v : List Nat)
    (h : ¬ k2 = k) : llookup (lset L k v) k2 = llookup L k2 := by
  have hkv : ¬ ((k, v) : String × List Nat).1 = k2 := fun hk => h hk.symm
  induction L with
  | nil =>
    simp only [lset]
    rw [llookup_cons_neg hkv]
  | cons e t ih =>
    by_cases he : e.1 = k
    · simp only [lset, if_pos he]
      rw [llookup_cons_neg hkv, llookup_cons_neg (fun hk => h (by rw [← hk]; exact he))]
    · simp only [lset, if_neg he]
      by_cases he2 : e.1 = k2
      · rw [llookup_cons_pos he2, llookup_cons_pos he2]
      · rw [llookup_cons_neg he2, llookup_cons_neg he2]
        exact ih

theorem llookup_lerase_self (L : List (String × List Nat)) (k : String) :
    llookup (lerase L k) k = none := by
  induction L with
  | nil => rfl
  | cons e t ih =>
    by_cases h : e.1 = k
    · rw [lerase_cons_pos h]
      exact ih
    · rw [lerase_cons_neg h, llookup_cons_neg h]
      exact ih

theorem llookup_lerase_ne (L : List (String × List Nat)) (k k2 : String) (h : ¬ k2 = k) :
    llookup (lerase L k) k2 = llookup L k2 := by
  induction L with
  | nil => rfl
  | cons e t ih =>
    by_cases he : e.1 = k
    · rw [lerase_cons_pos he, ih, llookup_cons_neg (fun hk => h (by rw [← hk]; exact he))]
    · rw [lerase_cons_neg he]
      by_cases he2 : e.1 = k2
      · rw [llookup_cons_pos he2, llookup_cons_pos he2]
      · rw [llookup_cons_neg he2, llookup_cons_neg he2]
        exact ih

theorem lset_of_llookup_eq (L : List (String × List Nat)) (k : String) (v : List Nat)
    (h : llookup L k = some v) : lset L k v = L := by
  induction L with
  | nil => simp [llookup] at h
  | cons e t ih =>
    by_cases he : e.1 = k
    · simp only [lset, if_pos he]
      have : e.2 = v := by
        unfold llookup at h
        rw [List.find?_cons_of_pos _ (by simp [he])] at h
        simpa using h
      rw [← he, ← this, Prod.mk.eta]
    · simp only [lset, if_neg he]
      have ht : llookup t k = some v := by
        unfold llookup at h
        rw [List.find?_cons_of_neg _ (by simp [he])] at h
        exact h
      rw [ih ht]

/-- The listener-map invariant of reachable worlds: no pending exception,
unallocated peers are blank, every listener list is nonempty, duplicate-free
and made of allocated sessions whose own address is its key, every session
holding an address is registered under it, and without sharing every list
has at most one entry. -/
def Inv (w : World) : Prop :=
  w.thrown = false ∧
  (∀ q, w.nextPeer ≤ q → getS w q = noSession) ∧
  (∀ a l, llookup w.listeners a = some l →
     l ≠ [] ∧ l.Nodup ∧ ∀ p, p ∈ l → p < w.nextPeer ∧ (getS w p).ownAddress = some a) ∧
  (∀ p a, (getS w p).ownAddress = some a →
     ∃ l, llookup w.listeners a = some l ∧ p ∈ l) ∧
  (w.addressSharing = false → ∀ a l, llookup w.listeners a = some l → l.length ≤ 1)

/-- The invariant with the no-pending-exception conjunct removed: what still
holds of a world an operation left mid-throw. -/
def InvNT (w : World) : Prop :=
  (∀ q, w.nextPeer ≤ q → getS w q = noSession) ∧
  (∀ a l, llookup w.listeners a = some l →
     l ≠ [] ∧ l.Nodup ∧ ∀ p, p ∈ l → p < w.nextPeer ∧ (getS w p).ownAddress = some a) ∧
  (∀ p a, (getS w p).ownAddress = some a →
     ∃ l, llookup w.listeners a = some l ∧ p ∈ l) ∧
  (w.addressSharing = false → ∀ a l, llookup w.listeners a = some l → l.length ≤ 1)

theorem inv_iff_invNT (w : World) : Inv w ↔ (w.thrown = false ∧ InvNT w) := Iff.rfl

theorem inv_of_sameShape {w w' : World} (hs : SameShape w w') (hinv : Inv w) : Inv w' := by
  obtain ⟨hl, ht, hsh, hn, ho, hhi⟩ := hs
  obtain ⟨i1, i2, i3, i4, i5⟩ := hinv
  refine ⟨?_, ?_, ?_, ?_, ?_⟩
  · rw [ht]; exact i1
  · intro q hq
    rw [hn] at hq
    rw [hhi q hq]
    exact i2 q hq
  · intro a l hll
    rw [hl] at hll
    obtain ⟨e1, e2, e3⟩ := i3 a l hll
    refine ⟨e1, e2, fun p hp => ?_⟩
    obtain ⟨b1, b2⟩ := e3 p hp
    exact ⟨by rw [hn]; exact b1, by rw [ho p]; exact b2⟩
  · intro p a hpa
    rw [ho p] at hpa
    obtain ⟨l, h1, h2⟩ := i4 p a hpa
    exact ⟨l, by rw [hl]; exact h1, h2⟩
  · intro hsh2 a l hll
    rw [hl] at hll
    exact i5 (by rw [← hsh]; exact hsh2) a l hll

theorem sameShape_joinFold (p : Nat) :
    ∀ (l : List Nat) (w : World), p < w.nextPeer → (∀ v ∈ l, v < w.nextPeer) →
      SameShape w (l.foldl (fun wa v =>
          if v ≠ p then acceptIncomingConnection (acceptIncomingConnection wa v p) p v
          else wa) w) := by
  intro l
  induction l with
  | nil => intro w _ _; exact sameShape_refl w
  | cons v t ih =>
    intro w hp hb
    rw [List.foldl_cons]
    have h1 : SameShape w (if v ≠ p then
        acceptIncomingConnection (acceptIncomingConnection w v p) p v else w) := by
      split
      · unfold acceptIncomingConnection
        have ha := sameShape_internalAddIncomingPeer (w := w) (p := v) p
          (hb v (List.mem_cons_self v t))
        refine sameShape_trans ha (sameShape_internalAddIncomingPeer v ?_)
        rw [ha.2.2.2.1]
        exact hp
      · exact sameShape_refl w
    refine sameShape_trans h1 (ih _ ?_ ?_)
    · rw [h1.2.2.2.1]; exact hp
    · intro v2 hv2
      rw [h1.2.2.2.1]
      exact hb v2 (List.mem_cons_of_mem _ hv2)

theorem sameShape_acceptJoin (w : World) (a : String) (p : Nat) (hp : p < w.nextPeer)
    (hb : ∀ l, llookup w.listeners a = some l → ∀ v ∈ l, v < w.nextPeer) :
    SameShape w (acceptJoin w a p) := by
  unfold acceptJoin
  cases hll : llookup w.listeners a with
  | none => exact sameShape_refl w
  | some l => exact sameShape_joinFold p l w hp (hb l hll)

theorem sameShape_onConnectionRequest (w : World) (p : Nat) (a : Option String) (id : Int)
    (hp : p < w.nextPeer)
    (hb : ∀ l, llookup w.listeners (addrKey a) = some l → ∀ v ∈ l, v < w.nextPeer) :
    SameShape w (onConnectionRequest w p a id) := by
  unfold onConnectionRequest
  split
  · rename_i l heq
    split
    · rename_i hlen
      obtain ⟨q, rfl⟩ := List.length_eq_one.mp hlen
      have hq : q < w.nextPeer := hb _ heq q (List.mem_singleton.mpr rfl)
      unfold acceptOutgoingConnection acceptIncomingConnection
      have h1 := sameShape_internalAddIncomingPeer (w := w) (p := [q].headI) p hq
      refine sameShape_trans h1 (sameShape_internalAddOutgoingPeer _ id ?_)
      rw [h1.2.2.2.1]
      exact hp
    · split
      · unfold denyConnection
        exact sameShape_trans (sameShape_of_peers_eq rfl rfl rfl rfl rfl)
          (sameShape_sendToClient _ _ _)
      · unfold denyConnection
        exact sameShape_sendToClient _ _ _
  · unfold denyConnection
    exact sameShape_sendToClient _ _ _

theorem thrown_removeListener_of_found {w : World} {p : Nat} {k : String} {l : List Nat}
    (h : llookup w.listeners k = some l) : (removeListener w p k).thrown = w.thrown := by
  simp only [removeListener, h]
  split <;> rfl

theorem listeners_stopListen_eq (w : World) (p : Nat) :
    (stopListen w p).listeners
      = (removeListener w p (addrKey (getS w p).ownAddress)).listeners := by
  simp only [stopListen, onStopListening]
  split
  · rfl
  · split
    · rfl
    · rw [setS_listeners, sendToClient_listeners]

theorem nextPeer_removeListener (w : World) (p : Nat) (k : String) :
    (removeListener w p k).nextPeer = w.nextPeer := by
  simp only [removeListener]
  split
  · rfl
  · split <;> rfl

theorem sharing_removeListener (w : World) (p : Nat) (k : String) :
    (removeListener w p k).addressSharing = w.addressSharing := by
  simp only [removeListener]
  split
  · rfl
  · split <;> rfl

theorem nextPeer_sendToClient (w : World) (p : Nat) (e : NetworkEvent) :
    (sendToClient w p e).nextPeer = w.nextPeer := by
  unfold sendToClient; split <;> rfl

theorem sharing_sendToClient (w : World) (p : Nat) (e : NetworkEvent) :
    (sendToClient w p e).addressSharing = w.addressSharing := by
  unfold sendToClient; split <;> rfl

theorem stopListen_post_of_found (w : World) (p : Nat) (a : String) (l : List Nat)
    (ha : (getS w p).ownAddress = some a)
    (hll : llookup w.listeners a = some l) (hth : w.thrown = false) :
    (getS (stopListen w p) p).ownAddress = none ∧
    (getS (stopListen w p) p).sstate = (getS w p).sstate ∧
    (∀ q, ¬ q = p → getS (stopListen w p) q = getS w q) ∧
    (stopListen w p).thrown = false ∧
    (stopListen w p).nextPeer = w.nextPeer ∧
    (stopListen w p).addressSharing = w.addressSharing ∧
    (stopListen w p).listeners = (removeListener w p a).listeners := by
  have hkey : addrKey (getS w p).ownAddress = a := by rw [ha]; rfl
  have hth1 : (removeListener w p a).thrown = false := by
    rw [thrown_removeListener_of_found hll, hth]
  have hsc : (getS (removeListener w p a) p).ownAddress = some a := by
    rw [getS_removeListener]; exact ha
  refine ⟨?_, ?_, ?_, ?_, ?_, ?_, ?_⟩ <;>
    simp only [stopListen, onStopListening, hkey] <;>
    rw [if_neg (by rw [hth1]; simp)] <;>
    rw [hsc]
  · rw [getS_setS_self]
  · rw [getS_setS_self]
    simp only [getS_sendToClient, getS_removeListener]
  · intro q hq
    rw [getS_setS_ne _ _ _ _ hq, getS_sendToClient, getS_removeListener]
  · rw [setS_thrown, sendToClient_thrown, thrown_removeListener_of_found hll, hth]
  · show (setS _ p _).nextPeer = _
    rw [show ∀ (ww : World) (s : Session), (setS ww p s).nextPeer = ww.nextPeer
        from fun _ _ => rfl,
      nextPeer_sendToClient, nextPeer_removeListener]
  · show (setS _ p _).addressSharing = _
    rw [show ∀ (ww : World) (s : Session), (setS ww p s).addressSharing = ww.addressSharing
        from fun _ _ => rfl,
      sharing_sendToClient, sharing_removeListener]
  · rw [setS_listeners, sendToClient_listeners]

/-- Stopping to listen while holding an address keeps the invariant: the
session is spliced out of its (unique) listener list, the key is dropped if
the list empties, no exception is thrown, and the session ends addressless
and absent from every list. -/
theorem inv_stopListen_set (w : World) (p : Nat) (a : String) (hinv : Inv w)
    (ha : (getS w p).ownAddress = some a) :
    Inv (stopListen w p) ∧ (stopListen w p).thrown = false ∧
    (getS (stopListen w p) p).ownAddress = none ∧
    (∀ a2 l2, llookup (stopListen w p).listeners a2 = some l2 → p ∉ l2) ∧
    (stopListen w p).nextPeer = w.nextPeer := by
  obtain ⟨i1, i2, i3, i4, i5⟩ := hinv
  obtain ⟨l, hll, hpl⟩ := i4 p a ha
  obtain ⟨hlne, hlnd, hlmem⟩ := i3 a l hll
  have hpn : p < w.nextPeer := (hlmem p hpl).1
  obtain ⟨hoNone, _, hoNe, hthF, hnpEq, hshEq, hLeq⟩ :=
    stopListen_post_of_found w p a l ha hll i1
  have hrmL : (removeListener w p a).listeners
      = if (l.erase p).isEmpty then lerase w.listeners a
        else lset w.listeners a (l.erase p) := by
    simp only [removeListener, hll]
    split <;> rfl
  by_cases hemp : (l.erase p).isEmpty = true
  · have hLF : (stopListen w p).listeners = lerase w.listeners a := by
      rw [hLeq, hrmL, if_pos hemp]
    have hep : l.erase p = [] := List.isEmpty_iff.mp hemp
    have hlone : l = [p] := by
      have h1 := List.length_erase_of_mem hpl
      rw [hep] at h1
      have h2 : 0 < l.length := List.length_pos.mpr hlne
      simp only [List.length_nil] at h1
      obtain ⟨x, hx⟩ := List.length_eq_one.mp (show l.length = 1 by omega)
      rw [hx] at hpl
      rw [hx, List.mem_singleton.mp hpl]
    refine ⟨⟨hthF, ?_, ?_, ?_, ?_⟩, hthF, hoNone, ?_, hnpEq⟩
    · intro q hq
      rw [hnpEq] at hq
      have hqp : ¬ q = p := fun h => absurd hpn (by rw [← h]; exact not_lt.mpr hq)
      rw [hoNe q hqp]
      exact i2 q hq
    · intro a2 l2 hl2
      rw [hLF] at hl2
      by_cases ha2 : a2 = a
      · rw [ha2, llookup_lerase_self] at hl2; cases hl2
      · rw [llookup_lerase_ne _ _ _ ha2] at hl2
        obtain ⟨e1, e2, e3⟩ := i3 a2 l2 hl2
        refine ⟨e1, e2, fun q hq => ?_⟩
        obtain ⟨b1, b2⟩ := e3 q hq
        have hqp : ¬ q = p := by
          intro h
          rw [h, ha] at b2
          exact ha2 (Option.some.inj b2).symm
        exact ⟨by rw [hnpEq]; exact b1, by rw [hoNe q hqp]; exact b2⟩
    · intro q a2 hq
      by_cases hqp : q = p
      · rw [hqp, hoNone] at hq; cases hq
      · rw [hoNe q hqp] at hq
        obtain ⟨l2, hl2, hm2⟩ := i4 q a2 hq
        by_cases ha2 : a2 = a
        · exfalso
          rw [ha2, hll] at hl2
          rw [← Option.some.inj hl2, hlone] at hm2
          exact hqp (List.mem_singleton.mp hm2)
        · refine ⟨l2, ?_, hm2⟩
          rw [hLF, llookup_lerase_ne _ _ _ ha2]
          exact hl2
    · intro hsh a2 l2 hl2
      rw [hLF] at hl2
      by_cases ha2 : a2 = a
      · rw [ha2, llookup_lerase_self] at hl2; cases hl2
      · rw [llookup_lerase_ne _ _ _ ha2] at hl2
        exact i5 (by rw [← hshEq]; exact hsh) a2 l2 hl2
    · intro a2 l2 hl2 hm2
      rw [hLF] at hl2
      by_cases ha2 : a2 = a
      · rw [ha2, llookup_lerase_self] at hl2; cases hl2
      · rw [llookup_lerase_ne _ _ _ ha2] at hl2
        have hmm := (i3 a2 l2 hl2).2.2 p hm2
        rw [ha] at hmm
        exact ha2 (Option.some.inj hmm.2).symm
  · have hLF : (stopListen w p).listeners = lset w.listeners a (l.erase p) := by
      rw [hLeq, hrmL, if_neg hemp]
    have hepne : l.erase p ≠ [] := by
      intro h; exact hemp (by rw [h]; rfl)
    refine ⟨⟨hthF, ?_, ?_, ?_, ?_⟩, hthF, hoNone, ?_, hnpEq⟩
    · intro q hq
      rw [hnpEq] at hq
      have hqp : ¬ q = p := fun h => absurd hpn (by rw [← h]; exact not_lt.mpr hq)
      rw [hoNe q hqp]
      exact i2 q hq
    · intro a2 l2 hl2
      rw [hLF] at hl2
      by_cases ha2 : a2 = a
      · subst ha2
        rw [llookup_lset_self] at hl2
        rw [← Option.some.inj hl2]
        refine ⟨hepne, List.Nodup.erase p hlnd, fun q hq => ?_⟩
        have hq2 := hlnd.mem_erase_iff.mp hq
        obtain ⟨b1, b2⟩ := hlmem q hq2.2
        exact ⟨by rw [hnpEq]; exact b1, by rw [hoNe q hq2.1]; exact b2⟩
      · rw [llookup_lset_ne _ _ _ _ ha2] at hl2
        obtain ⟨e1, e2, e3⟩ := i3 a2 l2 hl2
        refine ⟨e1, e2, fun q hq => ?_⟩
        obtain ⟨b1, b2⟩ := e3 q hq
        have hqp : ¬ q = p := by
          intro h
          rw [h, ha] at b2
          exact ha2 (Option.some.inj b2).symm
        exact ⟨by rw [hnpEq]; exact b1, by rw [hoNe q hqp]; exact b2⟩
    · intro q a2 hq
      by_cases hqp : q = p
      · rw [hqp, hoNone] at hq; cases hq
      · rw [hoNe q hqp] at hq
        obtain ⟨l2, hl2, hm2⟩ := i4 q a2 hq
        by_cases ha2 : a2 = a
        · have hleq : l2 = l := by
            rw [ha2, hll] at hl2
            exact (Option.some.inj hl2).symm
          refine ⟨l.erase p, by rw [hLF, ha2, llookup_lset_self], ?_⟩
          exact hlnd.mem_erase_iff.mpr ⟨hqp, hleq ▸ hm2⟩
        · refine ⟨l2, ?_, hm2⟩
          rw [hLF, llookup_lset_ne _ _ _ _ ha2]
          exact hl2
    · intro hsh a2 l2 hl2
      rw [hLF] at hl2
      by_cases ha2 : a2 = a
      · rw [ha2, llookup_lset_self] at hl2
        rw [← Option.some.inj hl2]
        calc (l.erase p).length ≤ l.length := List.length_erase_le p l
          _ ≤ 1 := i5 (by rw [← hshEq]; exact hsh) a l hll
      · rw [llookup_lset_ne _ _ _ _ ha2] at hl2
        exact i5 (by rw [← hshEq]; exact hsh) a2 l2 hl2
    · intro a2 l2 hl2 hm2
      rw [hLF] at hl2
      by_cases ha2 : a2 = a
      · rw [ha2, llookup_lset_self] at hl2
        rw [← Option.some.inj hl2] at hm2
        exact (hlnd.mem_erase_iff.mp hm2).1 rfl
      · rw [llookup_lset_ne _ _ _ _ ha2] at hl2
        have hmm := (i3 a2 l2 hl2).2.2 p hm2
        rw [ha] at hmm
        exact ha2 (Option.some.inj hmm.2).symm

theorem notInLists_of_ownAddress_none (w : World) (p : Nat) (hinv : Inv w)
    (h : (getS w p).ownAddress = none) :
    ∀ a l, llookup w.listeners a = some l → p ∉ l := by
  intro a l hl hm
  have hmm := (hinv.2.2.1 a l hl).2.2 p hm
  rw [h] at hmm
  cases hmm.2

theorem peers_addListener (w : World) (p : Nat) (addr : String) :
    (addListener w p addr).peers = w.peers := by
  unfold addListener; split <;> rfl

theorem thrown_addListener (w : World) (p : Nat) (addr : String) :
    (addListener w p addr).thrown = w.thrown := by
  unfold addListener; split <;> rfl

theorem nextPeer_addListener (w : World) (p : Nat) (addr : String) :
    (addListener w p addr).nextPeer = w.nextPeer := by
  unfold addListener; split <;> rfl

theorem sharing_addListener (w : World) (p : Nat) (addr : String) :
    (addListener w p addr).addressSharing = w.addressSharing := by
  unfold addListener; split <;> rfl

theorem getS_acceptListening_ne (w : World) (p : Nat) (addr : String) (q : Nat)
    (h : q ≠ p) : getS (acceptListening w p addr) q = getS w q := by
  unfold acceptListening
  dsimp only
  rw [getS_sendToClient, getS_setS_ne _ _ _ _ h]

theorem getS_acceptListening_self (w : World) (p : Nat) (addr : String) :
    getS (acceptListening w p addr) p = { getS w p with ownAddress := some addr } := by
  unfold acceptListening
  dsimp only
  rw [getS_sendToClient, getS_setS_self]

theorem listeners_acceptListening (w : World) (p : Nat) (addr : String) :
    (acceptListening w p addr).listeners = w.listeners := by
  unfold acceptListening
  dsimp only
  rw [sendToClient_listeners, setS_listeners]

theorem thrown_acceptListening (w : World) (p : Nat) (addr : String) :
    (acceptListening w p addr).thrown = w.thrown := by
  unfold acceptListening
  dsimp only
  rw [sendToClient_thrown, setS_thrown]

theorem nextPeer_acceptListening (w : World) (p : Nat) (addr : String) :
    (acceptListening w p addr).nextPeer = w.nextPeer := by
  unfold acceptListening
  dsimp only
  rw [nextPeer_sendToClient]
  rfl

theorem sharing_acceptListening (w : World) (p : Nat) (addr : String) :
    (acceptListening w p addr).addressSharing = w.addressSharing := by
  unfold acceptListening
  dsimp only
  rw [sharing_sendToClient]
  rfl

/-- Core of the listening-accept invariant argument, abstracted over the
updated listener list for the address. -/
theorem inv_listen_core (w : World) (p : Nat) (addr : String) (newl : List Nat)
    (hinv : Inv w) (hp : p < w.nextPeer) (hnone : (getS w p).ownAddress = none)
    (hLF : (acceptListening (addListener w p addr) p addr).listeners
      = lset w.listeners addr newl)
    (hne : newl ≠ []) (hnodup : newl.Nodup)
    (hmem : ∀ q, q ∈ newl ↔ (q = p ∨ ∃ l0, llookup w.listeners addr = some l0 ∧ q ∈ l0))
    (hlen : w.addressSharing = false → newl.length ≤ 1) :
    Inv (acceptListening (addListener w p addr) p addr) ∧
    (acceptListening (addListener w p addr) p addr).thrown = false ∧
    (acceptListening (addListener w p addr) p addr).nextPeer = w.nextPeer := by
  obtain ⟨i1, i2, i3, i4, i5⟩ := hinv
  have hgq : ∀ q, q ≠ p → getS (acceptListening (addListener w p addr) p addr) q
      = getS w q := by
    intro q hq
    rw [getS_acceptListening_ne _ _ _ _ hq]
    unfold getS
    rw [peers_addListener]
  have hgp : getS (acceptListening (addListener w p addr) p addr) p
      = { getS w p with ownAddress := some addr } := by
    rw [getS_acceptListening_self]
    unfold getS
    rw [peers_addListener]
  have hth : (acceptListening (addListener w p addr) p addr).thrown = false := by
    rw [thrown_acceptListening, thrown_addListener, i1]
  have hnp : (acceptListening (addListener w p addr) p addr).nextPeer = w.nextPeer := by
    rw [nextPeer_acceptListening, nextPeer_addListener]
  have hsh : (acceptListening (addListener w p addr) p addr).addressSharing
      = w.addressSharing := by
    rw [sharing_acceptListening, sharing_addListener]
  refine ⟨⟨hth, ?_, ?_, ?_, ?_⟩, hth, hnp⟩
  · intro q hq
    rw [hnp] at hq
    have hqp : q ≠ p := fun h => absurd hp (by rw [← h]; exact not_lt.mpr hq)
    rw [hgq q hqp]
    exact i2 q hq
  · intro a2 l2 hl2
    rw [hLF] at hl2
    by_cases ha2 : a2 = addr
    · subst ha2
      rw [llookup_lset_self] at hl2
      obtain rfl := Option.some.inj hl2
      refine ⟨hne, hnodup, fun q hq => ?_⟩
      rcases (hmem q).mp hq with rfl | ⟨l0, hll0, hq0⟩
      · exact ⟨by rw [hnp]; exact hp, by rw [hgp]⟩
      · obtain ⟨b1, b2⟩ := (i3 _ l0 hll0).2.2 q hq0
        have hqp : q ≠ p := by
          intro h
          rw [h, hnone] at b2
          cases b2
        exact ⟨by rw [hnp]; exact b1, by rw [hgq q hqp]; exact b2⟩
    · rw [llookup_lset_ne _ _ _ _ ha2] at hl2
      obtain ⟨e1, e2, e3⟩ := i3 a2 l2 hl2
      refine ⟨e1, e2, fun q hq => ?_⟩
      obtain ⟨b1, b2⟩ := e3 q hq
      have hqp : q ≠ p := by
        intro h
        rw [h, hnone] at b2
        cases b2
      exact ⟨by rw [hnp]; exact b1, by rw [hgq q hqp]; exact b2⟩
  · intro q a2 hq
    by_cases hqp : q = p
    · subst hqp
      rw [hgp] at hq
      obtain rfl := Option.some.inj hq
      refine ⟨newl, ?_, (hmem q).mpr (Or.inl rfl)⟩
      rw [hLF]
      exact llookup_lset_self _ _ _
    · rw [hgq q hqp] at hq
      obtain ⟨l, hll, hm⟩ := i4 q a2 hq
      by_cases ha2 : a2 = addr
      · subst ha2
        refine ⟨newl, ?_, (hmem q).mpr (Or.inr ⟨l, hll, hm⟩)⟩
        rw [hLF]
        exact llookup_lset_self _ _ _
      · refine ⟨l, ?_, hm⟩
        rw [hLF, llookup_lset_ne _ _ _ _ ha2]
        exact hll
  · intro hshf a2 l2 hl2
    rw [hsh] at hshf
    rw [hLF] at hl2
    by_cases ha2 : a2 = addr
    · subst ha2
      rw [llookup_lset_self] at hl2
      obtain rfl := Option.some.inj hl2
      exact hlen hshf
    · rw [llookup_lset_ne _ _ _ _ ha2] at hl2
      exact i5 hshf a2 l2 hl2

/-- Accepting a listening request of an addressless session keeps the
invariant: the session is appended to the address list (created fresh when
the address was unused) and records the address. -/
theorem inv_acceptListening_add (w : World) (p : Nat) (addr : String) (hinv : Inv w)
    (hp : p < w.nextPeer) (hnone : (getS w p).ownAddress = none)
    (havail : isAddressAvailable w addr = true) :
    Inv (acceptListening (addListener w p addr) p addr) ∧
    (acceptListening (addListener w p addr) p addr).thrown = false ∧
    (acceptListening (addListener w p addr) p addr).nextPeer = w.nextPeer := by
  have hnl := notInLists_of_ownAddress_none w p hinv hnone
  cases hll0 : llookup w.listeners addr with
  | none =>
    refine inv_listen_core w p addr [p] hinv hp hnone ?_ (by simp) (by simp) ?_ ?_
    · rw [listeners_acceptListening]
      simp only [addListener, hll0]
    · intro q
      simp only [List.mem_singleton, hll0]
      constructor
      · exact Or.inl
      · rintro (h | ⟨l0, h0, _⟩)
        · exact h
        · cases h0
    · intro _
      simp
  | some l0 =>
    have hshT : w.addressSharing = true := by
      unfold isAddressAvailable at havail
      rw [hll0] at havail
      simp at havail
      exact havail.2
    refine inv_listen_core w p addr (l0 ++ [p]) hinv hp hnone ?_ (by simp) ?_ ?_ ?_
    · rw [listeners_acceptListening]
      simp only [addListener, hll0]
    · have hpn : p ∉ l0 := hnl addr l0 hll0
      have hn0 : l0.Nodup := (hinv.2.2.1 addr l0 hll0).2.1
      simp [List.nodup_append, hn0, hpn]
    · intro q
      simp only [List.mem_append, List.mem_singleton, hll0]
      constructor
      · rintro (h | h)
        · exact Or.inr ⟨l0, rfl, h⟩
        · exact Or.inl h
      · rintro (h | ⟨l1, h1, hm1⟩)
        · exact Or.inr h
        · exact Or.inl (by rw [Option.some.inj h1]; exact hm1)
    · intro hshf
      rw [hshf] at hshT
      cases hshT

/-- A full listening request of an addressless session preserves the
invariant, never throws, and leaves the peer counter unchanged. -/
theorem inv_onListeningRequest (w : World) (p : Nat) (addr : String) (hinv : Inv w)
    (hp : p < w.nextPeer) (hnone : (getS w p).ownAddress = none) :
    Inv (onListeningRequest w p addr) ∧ (onListeningRequest w p addr).thrown = false ∧
    (onListeningRequest w p addr).nextPeer = w.nextPeer := by
  unfold onListeningRequest
  split
  · rename_i havail
    dsimp only
    obtain ⟨hI2, hT2, hN2⟩ := inv_acceptListening_add w p addr hinv hp hnone havail
    split
    · have hp2 : p < (acceptListening (addListener w p addr) p addr).nextPeer := by
        rw [hN2]; exact hp
      have hb : ∀ l, llookup (acceptListening (addListener w p addr) p addr).listeners addr
          = some l → ∀ v ∈ l,
          v < (acceptListening (addListener w p addr) p addr).nextPeer := by
        intro l hl v hv
        exact ((hI2.2.2.1 addr l hl).2.2 v hv).1
      have hs := sameShape_acceptJoin (acceptListening (addListener w p addr) p addr)
        addr p hp2 hb
      refine ⟨inv_of_sameShape hs hI2, ?_, ?_⟩
      · rw [hs.2.1]; exact hT2
      · rw [hs.2.2.2.1]; exact hN2
    · exact ⟨hI2, hT2, hN2⟩
  · unfold denyListening
    have hs := sameShape_sendToClient w p
      ⟨NetEventType.ServerInitFailed, INVALID, Payload.str addr⟩
    exact ⟨inv_of_sameShape hs hinv, by rw [hs.2.1]; exact hinv.1, hs.2.2.2.1⟩

/-- The protocol's catch branch restores the invariant from its
exception-free part: it clears the pending exception and only counts an
error log. -/
theorem inv_catch (w1 : World) (h : InvNT w1) :
    Inv (if w1.thrown then { w1 with thrown := false, errlogs := w1.errlogs + 1 }
         else w1) := by
  split
  · exact (inv_iff_invNT _).mpr ⟨rfl, h⟩
  · rename_i ht
    exact (inv_iff_invNT _).mpr ⟨by simp only [Bool.not_eq_true] at ht; exact ht, h⟩

/-- The listen handler keeps the exception-free part of the invariant for any
requested address, including the throwing null address. -/
theorem invNT_listen (w : World) (p : Nat) (address : Option String) (hinv : Inv w)
    (hp : p < w.nextPeer) : InvNT (listen w p address) := by
  have hNT := ((inv_iff_invNT w).mp hinv).2
  unfold listen
  dsimp only
  by_cases ho : (getS w p).ownAddress = none
  · rw [if_neg (not_not_intro ho)]
    split
    · rename_i ht
      rw [hinv.1] at ht
      cases ht
    · cases address with
      | none => exact hNT
      | some a => exact ((inv_iff_invNT _).mp (inv_onListeningRequest w p a hinv hp ho).1).2
  · rw [if_pos ho]
    obtain ⟨a0, ha0⟩ := Option.ne_none_iff_exists'.mp ho
    obtain ⟨hI1, hT1, hO1, _, hN1⟩ := inv_stopListen_set w p a0 hinv ha0
    split
    · rename_i ht
      rw [hT1] at ht
      cases ht
    · cases address with
      | none => exact ((inv_iff_invNT _).mp hI1).2
      | some a =>
        exact ((inv_iff_invNT _).mp
          (inv_onListeningRequest _ p a hI1 (by rw [hN1]; exact hp) hO1).1).2

/-- The stop-listen handler keeps the exception-free part of the invariant:
with an address it runs the clean removal, without one it either throws at
the missing "null" key or error-logs with everything else untouched. -/
theorem invNT_stopListen (w : World) (p : Nat) (hinv : Inv w) :
    InvNT (stopListen w p) := by
  cases ho : (getS w p).ownAddress with
  | some a => exact ((inv_iff_invNT _).mp (inv_stopListen_set w p a hinv ho).1).2
  | none =>
    have hNT := ((inv_iff_invNT w).mp hinv).2
    unfold stopListen
    dsimp only
    rw [ho]
    unfold onStopListening
    cases hll : llookup w.listeners (addrKey none) with
    | none =>
      have hrm : removeListener w p (addrKey none) = { w with thrown := true } := by
        unfold removeListener
        rw [hll]
      rw [hrm]
      rw [if_pos rfl]
      exact hNT
    | some l =>
      have hpl : p ∉ l := notInLists_of_ownAddress_none w p hinv ho (addrKey none) l hll
      have hlne : l ≠ [] := (hinv.2.2.1 _ l hll).1
      have hempty : l.isEmpty = false := by
        cases l with
        | nil => exact absurd rfl hlne
        | cons a t => rfl
      have hrm : removeListener w p (addrKey none) = w := by
        unfold removeListener
        rw [hll]
        dsimp only
        rw [List.erase_of_not_mem hpl, if_neg (by simp [hempty]),
          lset_of_llookup_eq _ _ _ hll]
      rw [hrm]
      split
      · rename_i ht
        rw [hinv.1] at ht
        cases ht
      · rw [ho]
        exact hNT

/-- Admitting a new socket preserves the invariant: the fresh session is
Connected with no address and the peer counter advances past it. -/
theorem inv_addPeer (w : World) (hinv : Inv w) : Inv (addPeer w) := by
  obtain ⟨i1, i2, i3, i4, i5⟩ := hinv
  have hg : ∀ q, getS (addPeer w) q
      = if q = w.nextPeer then freshSession else getS w q := fun q => rfl
  have hn : (addPeer w).nextPeer = w.nextPeer + 1 := rfl
  have hL : (addPeer w).listeners = w.listeners := rfl
  refine ⟨i1, ?_, ?_, ?_, ?_⟩
  · intro q hq
    rw [hn] at hq
    have hqne : q ≠ w.nextPeer := by omega
    rw [hg q, if_neg hqne]
    exact i2 q (by omega)
  · intro a l hl
    rw [hL] at hl
    obtain ⟨e1, e2, e3⟩ := i3 a l hl
    refine ⟨e1, e2, fun q hq => ?_⟩
    obtain ⟨b1, b2⟩ := e3 q hq
    have hqne : q ≠ w.nextPeer := by omega
    rw [hn, hg q, if_neg hqne]
    exact ⟨by omega, b2⟩
  · intro q a hq
    rw [hg q] at hq
    by_cases hqe : q = w.nextPeer
    · rw [if_pos hqe] at hq
      simp [freshSession] at hq
    · rw [if_neg hqe] at hq
      obtain ⟨l, hll, hm⟩ := i4 q a hq
      exact ⟨l, by rw [hL]; exact hll, hm⟩
  · intro hsh a l hl
    rw [hL] at hl
    exact i5 hsh a l hl

/-- Every inbound client message of an allocated session preserves the
invariant: each dispatch arm either keeps the pool shape or is one of the
verified listen/stop-listen updates, and the protocol's catch restores the
exception flag. -/
theorem inv_handleMessage (w : World) (p : Nat) (evt : NetworkEvent) (hinv : Inv w)
    (hp : p < w.nextPeer) : Inv (handleMessage w p evt) := by
  obtain ⟨ety, cid, pl⟩ := evt
  have hNT := ((inv_iff_invNT w).mp hinv).2
  cases ety with
  | NewConnection =>
    exact inv_catch _ ((inv_iff_invNT _).mp
      (inv_of_sameShape (sameShape_onConnectionRequest w p _ _ hp
        (fun l hl v hv => ((hinv.2.2.1 _ l hl).2.2 v hv).1)) hinv)).2
  | Disconnected =>
    exact inv_catch _ ((inv_iff_invNT _).mp
      (inv_of_sameShape (sameShape_disconnect p cid hinv.2.1) hinv)).2
  | ServerInitialized => exact inv_catch _ (invNT_listen w p _ hinv hp)
  | ServerClosed => exact inv_catch _ (invNT_stopListen w p hinv)
  | ReliableMessageReceived =>
    exact inv_catch _ ((inv_iff_invNT _).mp
      (inv_of_sameShape (sameShape_sendData w p cid _ true) hinv)).2
  | UnreliableMessageReceived =>
    exact inv_catch _ ((inv_iff_invNT _).mp
      (inv_of_sameShape (sameShape_sendData w p cid _ false) hinv)).2
  | MetaVersion => exact hinv
  | MetaHeartbeat => exact hinv
  | Invalid => exact inv_catch _ hNT
  | ServerInitFailed => exact inv_catch _ hNT
  | ConnectionFailed => exact inv_catch _ hNT
  | FatalError => exact inv_catch _ hNT
  | Warning => exact inv_catch _ hNT
  | Log => exact inv_catch _ hNT

/-- Full session cleanup preserves the invariant and the peer counter. -/
theorem inv_cleanup (w : World) (p : Nat) (hinv : Inv w) (hp : p < w.nextPeer) :
    Inv (cleanup w p) ∧ (cleanup w p).nextPeer = w.nextPeer := by
  by_cases hg : (getS w p).sstate = SignalingConnectionState.Disconnecting ∨
      (getS w p).sstate = SignalingConnectionState.Disconnected
  · rw [cleanup_of_disc w p hg]
    exact ⟨hinv, rfl⟩
  · rw [cleanup_eq_body w p hg]
    dsimp only
    set w2 := onCleanup (setStateOf w p SignalingConnectionState.Disconnecting) p with hw2
    set w3 := disconnectAll w2 p ((getS w2 p).connections.map (fun e => e.1)) with hw3
    set w4 := if (getS w3 p).ownAddress ≠ none then stopListen w3 p else w3 with hw4
    have hs2 : SameShape w w2 :=
      sameShape_trans (sameShape_setStateOf _ hp) (sameShape_onCleanup _ _)
    have hI2 : Inv w2 := inv_of_sameShape hs2 hinv
    have hs3 : SameShape w2 w3 := sameShape_disconnectAll p _ w2 hI2.2.1
    have hI3 : Inv w3 := inv_of_sameShape hs3 hI2
    have hN3 : w3.nextPeer = w.nextPeer := by rw [hs3.2.2.2.1, hs2.2.2.2.1]
    have hw4facts : Inv w4 ∧ w4.thrown = false ∧ w4.nextPeer = w.nextPeer := by
      rw [hw4]
      by_cases ho : (getS w3 p).ownAddress = none
      · rw [if_neg (not_not_intro ho)]
        exact ⟨hI3, hI3.1, hN3⟩
      · rw [if_pos ho]
        obtain ⟨a, ha⟩ := Option.ne_none_iff_exists'.mp ho
        obtain ⟨hI4, hT4, _, _, hN4⟩ := inv_stopListen_set w3 p a hI3 ha
        exact ⟨hI4, hT4, by rw [hN4]; exact hN3⟩
    obtain ⟨hI4, hT4, hN4⟩ := hw4facts
    split
    · rename_i ht
      rw [hT4] at ht
      cases ht
    · have hp4 : p < w4.nextPeer := by rw [hN4]; exact hp
      split
      · have hs := sameShape_setStateOf SignalingConnectionState.Disconnected hp4
        exact ⟨inv_of_sameShape hs hI4, by rw [hs.2.2.2.1]; exact hN4⟩
      · have hsm := sameShape_markDisposed (w := w4) (p := p) hp4
        have hp4m : p < (markDisposed w4 p).nextPeer := by rw [hsm.2.2.2.1]; exact hp4
        have hs := sameShape_trans hsm
          (sameShape_setStateOf SignalingConnectionState.Disconnected hp4m)
        exact ⟨inv_of_sameShape hs hI4, by rw [hs.2.2.2.1]; exact hN4⟩

/-- A socket-close cleanup of an allocated session preserves the invariant. -/
theorem inv_onSocketClose (w : World) (p : Nat) (hinv : Inv w) (hp : p < w.nextPeer) :
    Inv (onSocketClose w p) := by
  unfold onSocketClose
  split
  · exact hinv
  · dsimp only
    obtain ⟨hI1, hN1⟩ := inv_cleanup w p hinv hp
    split
    · rename_i ht
      rw [hI1.1] at ht
      cases ht
    · exact inv_of_sameShape (sameShape_markDisposed (by rw [hN1]; exact hp)) hI1

/-- Every reachable pool state satisfies the invariant: no pending exception,
unallocated ids blank, listener lists nonempty, duplicate-free, populated by
allocated sessions that hold the matching address, every held address
registered, and single-occupancy lists when address sharing is off. -/
theorem reachable_inv {w : World} (h : Reachable w) : Inv w := by
  induction h with
  | init sharing =>
    refine ⟨rfl, fun q _ => rfl, ?_, ?_, ?_⟩
    · intro a l hl
      simp [llookup, initWorld] at hl
    · intro q a hq
      simp [getS, initWorld, noSession] at hq
    · intro _ a l hl
      simp [llookup, initWorld] at hl
  | newPeer hr ih => exact inv_addPeer _ ih
  | message evt hr hst ih =>
    rename_i w' p'
    have hp : p' < w'.nextPeer := by
      by_contra hnp
      have hns := ih.2.1 p' (le_of_not_lt hnp)
      rw [hns] at hst
      simp [noSession] at hst
    exact inv_handleMessage _ _ _ ih hp
  | socketClose hr hp ih => exact inv_onSocketClose _ _ ih hp

/-- C6: in every reachable pool state, with address sharing off each listener
list has at most one entry, and in any case no session appears twice in a
listener list. -/
theorem listener_exclusivity (w : World) (h : Reachable w) :
    (w.addressSharing = false →
      ∀ a l, llookup w.listeners a = some l → l.length ≤ 1) ∧
    (∀ a l, llookup w.listeners a = some l → l.Nodup) := by
  have hinv := reachable_inv h
  exact ⟨hinv.2.2.2.2, fun a l hl => (hinv.2.2.1 a l hl).2.1⟩

/-- Witness for C6: the world where the single admitted session listens on
"a" is reachable, and the exclusivity properties hold there. -/
theorem listener_exclusivity_witness :
    Reachable worldListening ∧
    ((worldListening.addressSharing = false →
      ∀ a l, llookup worldListening.listeners a = some l → l.length ≤ 1) ∧
    (∀ a l, llookup worldListening.listeners a = some l → l.Nodup)) := by
  have hr : Reachable worldListening :=
    Reachable.message _ (Reachable.newPeer (Reachable.init false)) (by decide)
  exact ⟨hr, listener_exclusivity worldListening hr⟩

/-- C5: a ServerClosed request of a session holding no address is dropped
with exactly one error log: nothing is sent to any client, no exception
escapes the protocol, and the sessions and the listener map are untouched
(the whole world is unchanged but for the error counter). -/
theorem serverClosed_unset_address_drops (w : World) (p : Nat) (cid : Int) (pl : Payload)
    (hr : Reachable w) (hnone : (getS w p).ownAddress = none) :
    handleMessage w p ⟨NetEventType.ServerClosed, cid, pl⟩
      = { w with errlogs := w.errlogs + 1 } := by
  have hinv := reachable_inv hr
  have hkey : ({ w with thrown := false, errlogs := w.errlogs + 1 } : World)
      = { w with errlogs := w.errlogs + 1 } := by
    rw [← hinv.1]
  dsimp only [handleMessage, onNetworkEvent]
  cases hll : llookup w.listeners (addrKey none) with
  | none =>
    have hrm : removeListener w p (addrKey none) = { w with thrown := true } := by
      unfold removeListener
      rw [hll]
    have hstop : stopListen w p = { w with thrown := true } := by
      unfold stopListen
      dsimp only
      rw [hnone]
      unfold onStopListening
      rw [hrm, if_pos rfl]
    rw [hstop]
    split
    · exact hkey
    · rename_i ht
      exact absurd rfl ht
  | some l =>
    have hpl : p ∉ l := notInLists_of_ownAddress_none w p hinv hnone (addrKey none) l hll
    have hlne : l ≠ [] := (hinv.2.2.1 _ l hll).1
    have hempty : l.isEmpty = false := by
      cases l with
      | nil => exact absurd rfl hlne
      | cons a t => rfl
    have hrm : removeListener w p (addrKey none) = w := by
      unfold removeListener
      rw [hll]
      dsimp only
      rw [List.erase_of_not_mem hpl, if_neg (by simp [hempty]),
        lset_of_llookup_eq _ _ _ hll]
    have hstop : stopListen w p = { w with errlogs := w.errlogs + 1 } := by
      unfold stopListen
      dsimp only
      rw [hnone]
      unfold onStopListening
      rw [hrm, if_neg (by rw [hinv.1]; exact Bool.false_ne_true), hnone]
    rw [hstop]
    split
    · rename_i ht
      have h2 : w.thrown = true := ht
      rw [hinv.1] at h2
      cases h2
    · rfl

/-- Witness for C5: in the reachable one-session world the session holds no
address, and its ServerClosed request only bumps the error counter. -/
theorem serverClosed_unset_address_drops_witness :
    Reachable worldOnePeer ∧ (getS worldOnePeer 0).ownAddress = none ∧
    handleMessage worldOnePeer 0 ⟨NetEventType.ServerClosed, 0, Payload.empty⟩
      = { worldOnePeer with errlogs := worldOnePeer.errlogs + 1 } :=
  ⟨Reachable.newPeer (Reachable.init false), rfl,
    serverClosed_unset_address_drops worldOnePeer 0 0 Payload.empty
      (Reachable.newPeer (Reachable.init false)) rfl⟩

/-- C9: cleanup is idempotent. Once a session is Disconnecting or
Disconnected a further cleanup invocation (in particular the re-entrant
onClosed raised from protocol.dispose during the first cleanup) returns the
world unchanged, and running cleanup twice equals running it once. -/
theorem cleanup_idempotent :
    (∀ (w : World) (p : Nat),
      (getS w p).sstate = SignalingConnectionState.Disconnecting ∨
      (getS w p).sstate = SignalingConnectionState.Disconnected →
      cleanup w p = w) ∧
    (∀ (w : World) (p : Nat), cleanup (cleanup w p) p = cleanup w p) := by
  constructor
  · exact cleanup_of_disc
  · intro w p
    exact cleanup_of_disc _ _ (sstate_cleanup w p)

/-- Witness for C9: at the paired world, cleanup of the Disconnecting-state
world is the identity and double cleanup equals single cleanup. -/
theorem cleanup_idempotent_witness :
    ((getS worldDisconnecting 0).sstate = SignalingConnectionState.Disconnecting ∨
      (getS worldDisconnecting 0).sstate = SignalingConnectionState.Disconnected) ∧
    cleanup worldDisconnecting 0 = worldDisconnecting ∧
    cleanup (cleanup worldPaired 0) 0 = cleanup worldPaired 0 := by
  refine ⟨Or.inl (by decide), ?_, ?_⟩
  · exact cleanup_idempotent.1 worldDisconnecting 0 (Or.inl (by decide))
  · exact cleanup_idempotent.2 worldPaired 0

/-- C8: a reliable or unreliable message received on a known pair id is
forwarded, with unmodified payload, as exactly one event to the partner's
client under the partner's reverse id, and nothing else changes (in
particular nothing is sent to the sender's client); an unknown id only
info-logs and drops the message. -/
theorem sendData_forward_exact :
    (∀ (w : World) (A B : Nat) (i j : Int) (d : Option (List Nat)) (rel : Bool),
      A ≠ B →
      conlookup (getS w A).connections i = some B →
      (getS w B).connections.filter (fun e => e.2 == A) = [(j, A)] →
      (getS w B).sstate = SignalingConnectionState.Connected →
      sendData w A i d rel =
        { w with trace := w.trace ++
            [(B, ⟨(if rel then NetEventType.ReliableMessageReceived
                   else NetEventType.UnreliableMessageReceived), j,
                  (match d with
                   | none => Payload.empty
                   | some b => Payload.bytes b)⟩)] }) ∧
    (∀ (w : World) (A : Nat) (i : Int) (d : Option (List Nat)) (rel : Bool),
      conlookup (getS w A).connections i = none →
      sendData w A i d rel = { w with infologs := w.infologs + 1 }) := by
  constructor
  · intro w A B i j d rel _ hAB hBA hB
    have hfind := findPeerConnectionId_of_filter (getS w B) A j hBA
    simp only [sendData, hAB, forwardMessage, hfind, Option.getD_some, sendToClient, hB,
      if_pos]
  · intro w A i d rel h
    simp only [sendData, h]

/-- Witness for C8: in the paired world, a reliable message from session 0 on
id 5 reaches session 1 under its reverse id 16384, and id 77 is unknown. -/
theorem sendData_forward_exact_witness :
    ((0 : Nat) ≠ 1 ∧
      conlookup (getS worldPaired 0).connections 5 = some 1 ∧
      (getS worldPaired 1).connections.filter (fun e => e.2 == 0) = [(16384, 0)] ∧
      (getS worldPaired 1).sstate = SignalingConnectionState.Connected ∧
      sendData worldPaired 0 5 (some [104, 105]) true =
        { worldPaired with trace := worldPaired.trace ++
            [(1, ⟨NetEventType.ReliableMessageReceived, 16384, Payload.bytes [104, 105]⟩)] }) ∧
    (conlookup (getS worldPaired 0).connections 77 = none ∧
      sendData worldPaired 0 77 (some [104]) true =
        { worldPaired with infologs := worldPaired.infologs + 1 }) := by
  refine ⟨⟨by decide, by decide, by decide, by decide, ?_⟩, ⟨by decide, ?_⟩⟩
  · exact sendData_forward_exact.1 worldPaired 0 1 5 16384 (some [104, 105]) true
      (by decide) (by decide) (by decide) (by decide)
  · exact sendData_forward_exact.2 worldPaired 0 77 (some [104]) true (by decide)

end Awrtc
